import Mathlib

/-!
# Verification of the Bluesky followers scraper core

Shallow embedding of the scraper's core modules:

* `src/extractors/utils_time.py` — `ensure_iso8601`, `sanitize_output_format`;
* `src/extractors/bluesky_parser.py` — `BlueskyFollowerClient`
  (`_build_profile_link`, `_normalize_follower`, `fetch_followers`);
* `src/outputs/exporters.py` — `export_followers` and `_write_json`.

Decoded JSON payloads are modelled by `JVal` (Python values as produced by
`json.loads`, with integer numerics), strings by `List Char` where parsing
is involved, stateful HTTP interaction by an explicit response function and
an explicit request trace, and file/stdout side effects by a list of effect
descriptions.  The Python `datetime.fromisoformat` / `datetime.isoformat`
pair is modelled after its documented pre-3.11 grammar, which is the
grammar the source code targets (it rewrites the trailing `Z` itself).
-/

namespace Scraper

/-- Python values decoded from JSON (`json.loads` output): `None`, `str`,
`int`, `bool`, `list` and insertion-ordered `dict` with string keys. -/
inductive JVal where
  | null : JVal
  | str (s : String) : JVal
  | num (n : Int) : JVal
  | bool (b : Bool) : JVal
  | arr (xs : List JVal) : JVal
  | obj (kvs : List (String × JVal)) : JVal

/-- Python truthiness (`bool(v)`) of a decoded JSON value. -/
def JVal.truthy : JVal → Bool
  | .null => false
  | .str s => s != ""
  | .num n => n != 0
  | .bool b => b
  | .arr xs => !xs.isEmpty
  | .obj kvs => !kvs.isEmpty

/-- A decoded JSON object (Python dict): an insertion-ordered association
list with string keys. -/
abbrev Raw : Type := List (String × JVal)

/-- `raw.get(k)` on a Python dict: the stored value, or `None` when the
key is missing. -/
def rawGet (raw : Raw) (k : String) : JVal :=
  (List.lookup k raw).getD .null

/-- Python `a or b` on decoded JSON values. -/
def pyOr (a b : JVal) : JVal := if a.truthy then a else b

/-! ## Decimal digits -/

/-- The ASCII digit character for `d` (`d < 10` in all uses). -/
def dch (d : Nat) : Char := Char.ofNat (48 + d)

/-- Is `c` an ASCII decimal digit? -/
def isDig (c : Char) : Bool := 48 ≤ c.toNat && c.toNat ≤ 57

/-- Numeric value of an ASCII digit character. -/
def dval (c : Char) : Nat := c.toNat - 48

/-! ## Whitespace stripping (`str.strip()`) -/

/-- The whitespace characters recognised by Python's `str.strip()`: the
codepoints `c` with `chr(c).strip() == ''` (CPython `Py_UNICODE_ISSPACE`):
`\t\n\v\f\r`, `\x1c`-`\x1f`, the space, NEL (133) and NBSP (160), and
the Unicode space separators 5760, 8192-8202, 8232, 8233, 8239, 8287
and 12288. -/
def isPySpace (c : Char) : Bool :=
  let n := c.toNat
  (9 ≤ n && n ≤ 13) || (28 ≤ n && n ≤ 32) || n == 133 || n == 160 ||
  n == 5760 || (8192 ≤ n && n ≤ 8202) || n == 8232 || n == 8233 ||
  n == 8239 || n == 8287 || n == 12288

/-- Python `s.strip()`: drop leading and trailing whitespace. -/
def pystrip (cs : List Char) : List Char :=
  ((cs.dropWhile isPySpace).reverse.dropWhile isPySpace).reverse

/-! ## `datetime.fromisoformat` / `datetime.isoformat`

The source file rewrites a trailing `Z` and then calls
`datetime.fromisoformat`; on success it truncates the microsecond field and
calls `datetime.isoformat()`.  Both library functions are modelled here:
the parser after the documented pre-3.11 grammar
`YYYY-MM-DD[<sep>HH[:MM[:SS[.fff[fff]]]][±HH:MM[:SS[.ffffff]]]]`, the
renderer after the documented output
`YYYY-MM-DDTHH:MM:SS[.ffffff][±HH:MM[:SS[.ffffff]]]`. -/

/-- A Python `datetime` value: calendar fields plus an optional fixed
offset in microseconds (`tzinfo = timezone(timedelta(microseconds = off))`). -/
structure PyDateTime where
  year : Nat
  month : Nat
  day : Nat
  hour : Nat
  minute : Nat
  second : Nat
  microsecond : Nat
  tz : Option Int
  deriving DecidableEq, Repr

/-- Parse exactly two ASCII digits. -/
def p2 : List Char → Option (Nat × List Char)
  | c1 :: c2 :: rest =>
      if isDig c1 && isDig c2 then some (dval c1 * 10 + dval c2, rest) else none
  | _ => none

/-- Parse exactly four ASCII digits. -/
def p4 (cs : List Char) : Option (Nat × List Char) := do
  let (a, r1) ← p2 cs
  let (b, r2) ← p2 r1
  some (a * 100 + b, r2)

/-- Parse exactly six ASCII digits. -/
def p6 (cs : List Char) : Option (Nat × List Char) := do
  let (a, r1) ← p2 cs
  let (b, r2) ← p2 r1
  let (c, r3) ← p2 r2
  some (a * 10000 + b * 100 + c, r3)

/-- Parse exactly three ASCII digits. -/
def p3 (cs : List Char) : Option (Nat × List Char) := do
  let (a, r1) ← p2 cs
  match r1 with
  | c :: rest => if isDig c then some (a * 10 + dval c, rest) else none
  | [] => none

/-- Parse a fractional-second field of exactly six or exactly three
digits, as microseconds. -/
def pFrac (cs : List Char) : Option (Nat × List Char) :=
  match p6 cs with
  | some (v, rest) => some (v, rest)
  | none =>
      match p3 cs with
      | some (v, rest) => some (v * 1000, rest)
      | none => none

/-- Expect one specific character. -/
def expectChar (c : Char) : List Char → Option (List Char)
  | c' :: rest => if c' = c then some rest else none
  | [] => none

/-- The magnitude of a UTC-offset suffix `HH:MM[:SS[.ffffff]]` (which must
end the string), in microseconds.  Pre-3.11 `_parse_isoformat_time`
accepts exactly the offset-string lengths 5, 8 and 15, so the fractional
part has exactly six digits. -/
def parseTzMag (rest : List Char) : Option Nat := do
  let (hh, r1) ← p2 rest
  let r2 ← expectChar ':' r1
  let (mm, r3) ← p2 r2
  match r3 with
  | [] => some ((hh * 60 + mm) * 60000000)
  | ':' :: r4 => do
      let (ss, r5) ← p2 r4
      match r5 with
      | [] => some (((hh * 60 + mm) * 60 + ss) * 1000000)
      | '.' :: r6 => do
          let (us, r7) ← p6 r6
          if r7 = [] then some (((hh * 60 + mm) * 60 + ss) * 1000000 + us)
          else none
      | _ => none
  | _ => none

/-- Parse the optional UTC-offset suffix `±HH:MM[:SS[.ffffff]]` (which
must end the string), as signed microseconds. -/
def parseTz : List Char → Option (Option Int)
  | [] => some none
  | '+' :: rest => do
      let m ← parseTzMag rest
      some (some (Int.ofNat m))
  | '-' :: rest => do
      let m ← parseTzMag rest
      some (some (-(Int.ofNat m)))
  | _ => none

/-- Parse the time-of-day portion
`HH[:MM[:SS[.fff[fff]]]][±HH:MM[:SS[.ffffff]]]`. -/
def parseTime (cs : List Char) : Option (Nat × Nat × Nat × Nat × Option Int) := do
  let (hh, r1) ← p2 cs
  match r1 with
  | ':' :: r2 => do
      let (mi, r3) ← p2 r2
      match r3 with
      | ':' :: r4 => do
          let (ss, r5) ← p2 r4
          match r5 with
          | '.' :: r6 => do
              let (us, r7) ← pFrac r6
              let tz ← parseTz r7
              some (hh, mi, ss, us, tz)
          | r5 => do
              let tz ← parseTz r5
              some (hh, mi, ss, 0, tz)
      | r3 => do
          let tz ← parseTz r3
          some (hh, mi, 0, 0, tz)
  | r1 => do
      let tz ← parseTz r1
      some (hh, 0, 0, 0, tz)

/-- Grammar part of `datetime.fromisoformat`: `YYYY-MM-DD`, optionally
followed by a single separator character and a time-of-day portion.
Range validation happens separately, as in the library (the `datetime`
constructor). -/
def rawParseIso (cs : List Char) : Option PyDateTime := do
  let (y, r1) ← p4 cs
  let r2 ← expectChar '-' r1
  let (mo, r3) ← p2 r2
  let r4 ← expectChar '-' r3
  let (d, r5) ← p2 r4
  match r5 with
  | [] => some ⟨y, mo, d, 0, 0, 0, 0, none⟩
  | _ :: rest => do
      let (hh, mi, ss, us, tz) ← parseTime rest
      some ⟨y, mo, d, hh, mi, ss, us, tz⟩

/-- Gregorian leap year. -/
def isLeapYear (y : Nat) : Bool :=
  y % 4 == 0 && (y % 100 != 0 || y % 400 == 0)

/-- Days in a given month. -/
def daysInMonth (y m : Nat) : Nat :=
  if m = 2 then (if isLeapYear y then 29 else 28)
  else if m = 4 ∨ m = 6 ∨ m = 9 ∨ m = 11 then 30 else 31

/-- The range checks performed by the `datetime` and `timezone`
constructors. -/
def PyDateTime.valid (dt : PyDateTime) : Bool :=
  decide (1 ≤ dt.year) && decide (dt.year ≤ 9999) &&
  decide (1 ≤ dt.month) && decide (dt.month ≤ 12) &&
  decide (1 ≤ dt.day) && decide (dt.day ≤ daysInMonth dt.year dt.month) &&
  decide (dt.hour ≤ 23) && decide (dt.minute ≤ 59) && decide (dt.second ≤ 59) &&
  decide (dt.microsecond ≤ 999999) &&
  (match dt.tz with
   | none => true
   | some off => decide (off.natAbs < 86400000000))

/-- `datetime.fromisoformat`: grammar plus range validation; `none` is the
library raising `ValueError`. -/
def parseIso (cs : List Char) : Option PyDateTime := do
  let dt ← rawParseIso cs
  if dt.valid then some dt else none

/-- Two zero-padded decimal digits (`%02d`, for values below 100). -/
def pad2 (n : Nat) : List Char := [dch (n / 10), dch (n % 10)]

/-- Four zero-padded decimal digits (`%04d`). -/
def pad4 (n : Nat) : List Char := pad2 (n / 100) ++ pad2 (n % 100)

/-- Six zero-padded decimal digits (`%06d`). -/
def pad6 (n : Nat) : List Char := pad2 (n / 10000) ++ pad2 (n / 100 % 100) ++ pad2 (n % 100)

/-- Rendering of a fixed UTC offset as `±HH:MM[:SS[.ffffff]]`, as
`datetime.isoformat` formats `utcoffset()` (`_format_offset`): the
seconds field appears only when the offset has a sub-minute part, the
microsecond field only when it is nonzero. -/
def renderTz : Option Int → List Char
  | none => []
  | some off =>
      let a := off.natAbs
      (if off < 0 then '-' else '+') ::
        (pad2 (a / 3600000000) ++ ':' :: pad2 (a / 60000000 % 60) ++
         (if a % 60000000 = 0 then []
          else ':' :: pad2 (a % 60000000 / 1000000) ++
            (if a % 1000000 = 0 then [] else '.' :: pad6 (a % 1000000))))

/-- `datetime.isoformat()` with the default `timespec='auto'`:
`YYYY-MM-DDTHH:MM:SS`, the microsecond field as `.ffffff` when nonzero,
then the offset when the value is aware. -/
def isoformat (dt : PyDateTime) : List Char :=
  pad4 dt.year ++ '-' :: pad2 dt.month ++ '-' :: pad2 dt.day ++ 'T' ::
  pad2 dt.hour ++ ':' :: pad2 dt.minute ++ ':' :: pad2 dt.second ++
  (if dt.microsecond = 0 then [] else '.' :: pad6 dt.microsecond) ++ renderTz dt.tz

/-! ## `ensure_iso8601` and `sanitize_output_format` -/

/-- Truncation of the microsecond field to millisecond resolution:
`dt.replace(microsecond=(dt.microsecond // 1000) * 1000)`. -/
def truncMs (dt : PyDateTime) : PyDateTime :=
  { dt with microsecond := dt.microsecond / 1000 * 1000 }

/-- The `Z`-suffix rewrite done before parsing:
`if text.endswith("Z"): text = text[:-1] + "+00:00"`. -/
def zRewrite (text : List Char) : List Char :=
  if text.getLast? = some 'Z' then text.dropLast ++ "+00:00".data else text

/-- `ensure_iso8601` from `src/extractors/utils_time.py`.  The Python
`if not value` covers both `None` and the empty string; the local `text`
(the stripped input) is inlined. -/
def ensure_iso8601 : Option String → Option String
  | none => none
  | some v =>
      if v = "" then none
      else if pystrip v.data = [] then none
      else
        match parseIso (zRewrite (pystrip v.data)) with
        | none => some v
        | some dt => some (String.mk (isoformat (truncMs dt)))

/-- The fixed alias table of `sanitize_output_format`
(`aliases.get(normalized, ...)` for the keys it holds). -/
def aliasLookup (s : String) : Option String :=
  if s = "json" then some "json"
  else if s = "csv" then some "csv"
  else if s = "xml" then some "xml"
  else if s = "html" then some "html"
  else if s = "htm" then some "html"
  else if s = "rss" then some "rss"
  else none

/-- `sanitize_output_format` from `src/extractors/utils_time.py`.
`none` models Python `None`; note that a whitespace-only tag yields
`some ""` (Python returns the empty string, not `None`). -/
def sanitize_output_format (fmt : Option String) : Option String :=
  match fmt with
  | none => none
  | some f =>
      if f = "" then none
      else
        let normalized := String.mk ((pystrip f.data).map Char.toLower)
        some ((aliasLookup normalized).getD normalized)

/-- The time-of-day portion of `isoformat` output. -/
def timeRender (hh mi ss us : Nat) (tz : Option Int) : List Char :=
  pad2 hh ++ ':' :: (pad2 mi ++ ':' :: (pad2 ss ++
  ((if us = 0 then [] else '.' :: pad6 us) ++ renderTz tz)))

/-! ## Shape of `isoformat` output -/

/-- Reversed-suffix test for `±HH:MM` (the characters arrive reversed). -/
def revHHMM : List Char → Bool
  | m2 :: m1 :: c :: h2 :: h1 :: sgn :: _ =>
      isDig m2 && isDig m1 && (c == ':') && isDig h2 && isDig h1 &&
      (sgn == '+' || sgn == '-')
  | _ => false

/-- Reversed-suffix test for `±HH:MM:SS`. -/
def revSS : List Char → Bool
  | s2 :: s1 :: c :: tail => isDig s2 && isDig s1 && (c == ':') && revHHMM tail
  | _ => false

/-- Reversed-suffix test for `±HH:MM:SS.ffffff`. -/
def revFrac : List Char → Bool
  | f6 :: f5 :: f4 :: f3 :: f2 :: f1 :: d :: tail =>
      isDig f6 && isDig f5 && isDig f4 && isDig f3 && isDig f2 && isDig f1 &&
      (d == '.') && revSS tail
  | _ => false

/-- Does a rendered timestamp end in a fixed-offset suffix `±HH:MM`,
`±HH:MM:SS` or `±HH:MM:SS.ffffff`? -/
def endsWithOffset (cs : List Char) : Bool :=
  revHHMM cs.reverse || revSS cs.reverse || revFrac cs.reverse

/-- Does a rendered timestamp string end in a fixed-offset suffix? -/
def hasOffsetSuffix (s : String) : Bool := endsWithOffset s.data

/-! ## `BlueskyFollowerClient` record normalization
(`src/extractors/bluesky_parser.py`) -/

/-- Python exceptions that can escape the embedded code. -/
inductive PyErr where
  | valueError (msg : String)
  | attributeError (msg : String)
  deriving DecidableEq, Repr

/-- Python truthiness of an `Optional[str]`. -/
def pyTruthyStr : Option String → Bool
  | none => false
  | some s => s != ""

/-- `BlueskyFollowerClient._build_profile_link`. -/
def _build_profile_link (did handle : Option String) : Option String :=
  if pyTruthyStr handle then some ("https://bsky.app/profile/" ++ handle.getD "")
  else if pyTruthyStr did then some ("https://bsky.app/profile/" ++ did.getD "")
  else none

/-- Dynamic semantics of the call `ensure_iso8601(raw.get("createdAt"))`:
a falsy argument returns `None` through `if not value`, a truthy string
proceeds normally, and a truthy non-string raises `AttributeError` at
`value.strip()`, which runs before the guarded `try` block. -/
def ensureAny : JVal → Except PyErr (Option String)
  | .str s => .ok (ensure_iso8601 (some s))
  | v => if v.truthy then .error (.attributeError "strip") else .ok none

/-- A Python `None`-or-string result as a stored JSON value. -/
def optToJVal : Option String → JVal
  | none => .null
  | some s => .str s

/-- A string-typed field read from a raw payload, as the `Optional[str]`
the annotated signatures expect (string payload fields; a missing key is
`None`). -/
def jvalToOptStr : JVal → Option String
  | .str s => some s
  | _ => none

/-- The passthrough loop of `_normalize_follower`:
`for key, value in raw.items(): if key not in follower: follower[key] = value`. -/
def addPassthrough (follower : Raw) : Raw → Raw
  | [] => follower
  | (k, v) :: rest =>
      if (List.lookup k follower).isSome then addPassthrough follower rest
      else addPassthrough (follower ++ [(k, v)]) rest

/-- `BlueskyFollowerClient._normalize_follower`.  The `createdAt` value is
routed through `ensure_iso8601`; its dynamic call can raise, and the
exception propagates out of the normalizer. -/
def _normalize_follower (raw : Raw) : Except PyErr Raw :=
  match ensureAny (rawGet raw "createdAt") with
  | .error e => .error e
  | .ok created_at =>
      let did := rawGet raw "did"
      let handle := rawGet raw "handle"
      let display_name := rawGet raw "displayName"
      let avatar := rawGet raw "avatar"
      let description := pyOr (rawGet raw "description") (rawGet raw "bio")
      let labels := pyOr (rawGet raw "labels") (.arr [])
      let associated := pyOr (rawGet raw "associated") (.obj [])
      let follower : Raw := [
        ("did", did),
        ("handle", handle),
        ("displayName", display_name),
        ("avatar", avatar),
        ("createdAt", optToJVal created_at),
        ("description", description),
        ("labels", labels),
        ("associated", associated),
        ("link_to_profile",
          optToJVal (_build_profile_link (jvalToOptStr did) (jvalToOptStr handle)))]
      .ok (addPassthrough follower raw)

/-- The promoted field keys of a normalized record. -/
def promotedKeys : List String :=
  ["did", "handle", "displayName", "avatar", "createdAt", "description",
   "labels", "associated", "link_to_profile"]

/-! ## `BlueskyFollowerClient.fetch_followers`

The HTTP interaction is embedded as an abstract response function: for an
actor, a `limit` query parameter and an optional `cursor` query parameter
the server answers with a transport failure, an undecodable body, or a
decoded page.  The loop records every issued request. -/

/-- The `followers` field of a decoded page payload
(`payload.get("followers", [])`). -/
inductive FollowersField where
  | missing : FollowersField
  | notList (v : JVal) : FollowersField
  | items (xs : List Raw) : FollowersField

/-- One decoded response payload: the `followers` field and the optional
`cursor` field. -/
structure Page where
  followers : FollowersField
  cursor : Option String

/-- The outcome of one `client.get` + `raise_for_status` +
`response.json()` round trip. -/
inductive ApiResp where
  | fail : ApiResp
  | badBody : ApiResp
  | ok (page : Page) : ApiResp

/-- An abstract server: a response for a given actor, page size and
cursor parameter. -/
abbrev Api := String → Nat → Option String → ApiResp

/-- One recorded GET request: the `limit` query parameter and the
`cursor` query parameter (absent on the first request, or when the
running cursor is falsy). -/
structure Request where
  size : Nat
  cursor : Option String
  deriving DecidableEq, Repr

/-- The inner `for raw in page_followers` loop: normalize and append,
decrementing `remaining` and breaking when it reaches zero; a
normalization exception propagates and the appended records are lost. -/
def consumePage : List Raw → Nat → Except PyErr (List Raw × Nat)
  | [], r => .ok ([], r)
  | raw :: rest, r =>
      match _normalize_follower raw with
      | .error e => .error e
      | .ok rec =>
          if r - 1 = 0 then .ok ([rec], r - 1)
          else
            match consumePage rest (r - 1) with
            | .error e => .error e
            | .ok (recs, r2) => .ok (rec :: recs, r2)

/-- The `while remaining > 0` pagination loop.  `fuel` bounds the number
of iterations; every iteration that continues consumes at least one
record from `remaining`, so `fetch_followers` passes the initial
`remaining` as fuel and the bound is never hit. -/
def fetchLoop (api : Api) (actor : String) (maxPageSize : Nat) :
    Nat → Nat → Option String → Except PyErr (List Raw) × List Request
  | 0, _, _ => (.ok [], [])
  | fuel + 1, remaining, cursor =>
      if remaining = 0 then (.ok [], [])
      else
        let page_size := min maxPageSize remaining
        let cursorParam := if pyTruthyStr cursor then cursor else none
        let req : Request := ⟨page_size, cursorParam⟩
        match api actor page_size cursorParam with
        | .fail => (.ok [], [req])
        | .badBody => (.ok [], [req])
        | .ok page =>
            match page.followers with
            | .notList _ => (.ok [], [req])
            | .missing => (.ok [], [req])
            | .items [] => (.ok [], [req])
            | .items (x :: xs) =>
                match consumePage (x :: xs) remaining with
                | .error e => (.error e, [req])
                | .ok (recs, remaining2) =>
                    if pyTruthyStr page.cursor = false then (.ok recs, [req])
                    else if remaining2 = 0 then (.ok recs, [req])
                    else
                      let next :=
                        fetchLoop api actor maxPageSize fuel remaining2 page.cursor
                      (next.1.map fun more => recs ++ more, req :: next.2)

/-- `BlueskyFollowerClient.fetch_followers` (`max_page_size = 100` on the
default client).  The result carries the list of issued requests; a
non-positive limit raises `ValueError` before any request is made. -/
def fetch_followers (api : Api) (max_page_size : Nat) (actor : String)
    (limit : Int) : Except PyErr (List Raw) × List Request :=
  if limit ≤ 0 then (.error (.valueError "limit must be a positive integer"), [])
  else fetchLoop api actor max_page_size limit.toNat limit.toNat none

/-- The opaque continuation token naming position `pos` of the full
follower list (unary encoding; any injective encoding models the
server's cursor). -/
def cursTok (pos : Nat) : String := String.mk (List.replicate pos 'c')

/-- The cursor parameter that reaches the server when the loop sits at
position `pos`: absent at the start, the position token afterwards. -/
def cursAt (pos : Nat) : Option String :=
  if pos = 0 then none else some (cursTok pos)

/-- A well-behaved server holding the follower list `all`: it serves the
next `min(size, remaining_data)` records from the cursor position and
returns a continuation token exactly when data remains. -/
def honestApi (all : List Raw) : Api := fun _ size c =>
  let pos := match c with
    | none => 0
    | some s => s.data.length
  let served := (all.drop pos).take size
  let newPos := pos + served.length
  .ok ⟨.items served,
    if newPos < all.length then some (cursTok newPos) else none⟩

/-- The request sequence the specification describes for a server holding
`total` records: each request sized `min(page_cap, remaining_needed)`,
carrying no cursor at position zero and the previous response's
continuation token (the position token) afterwards; the sequence ends
with the request on which the limit is exhausted, the data runs out, or
no continuation token is returned. -/
def specRequestsAux (cap total : Nat) : Nat → Nat → Nat → List Request
  | 0, _, _ => []
  | fuel + 1, r, pos =>
      if r = 0 then []
      else
        let sz := min cap r
        let req : Request := ⟨sz, cursAt pos⟩
        let served := min sz (total - pos)
        if served = 0 then [req]
        else
          let pos2 := pos + served
          let r2 := r - served
          if total ≤ pos2 then [req]
          else if r2 = 0 then [req]
          else req :: specRequestsAux cap total fuel r2 pos2

/-- The full expected request sequence for limit `limit`. -/
def specRequests (cap total limit : Nat) : List Request :=
  specRequestsAux cap total limit limit 0

/-- Request `r2` carries exactly the continuation cursor of the server's
response to request `r1`. -/
def follows (api : Api) (actor : String) (r1 r2 : Request) : Prop :=
  ∃ page, api actor r1.size r1.cursor = .ok page ∧ r2.cursor = page.cursor

/-! ## `json.dumps(..., ensure_ascii=False, indent=2)` and `json.loads`

`_write_json` serializes the follower list with two-space indentation and
unescaped non-ASCII characters; the round-trip claim reads it back with a
standard JSON parser.  Both are modelled here over `JVal` (integer
numerics); the parser is fuelled, and the loader passes the input length
as fuel, which the round-trip proof shows is always enough. -/

/-- Decimal digits of `n`, most significant first (`fuel` bounds the
digit count; `natDigits` passes `n + 1`, which always suffices). -/
def natDigitsAux : Nat → Nat → List Char
  | 0, _ => []
  | fuel + 1, n => if n < 10 then [dch n] else natDigitsAux fuel (n / 10) ++ [dch (n % 10)]

/-- Decimal rendering of a natural number. -/
def natDigits (n : Nat) : List Char := natDigitsAux (n + 1) n

/-- `repr` of a Python int, as `json.dumps` renders it. -/
def intDump (i : Int) : List Char :=
  if i < 0 then '-' :: natDigits i.natAbs else natDigits i.toNat

/-- Greedy decimal scan with accumulator. -/
def pNum : List Char → Nat → Nat × List Char
  | c :: cs, acc => if isDig c then pNum cs (acc * 10 + dval c) else (acc, c :: cs)
  | [], acc => (acc, [])

/-- The opening and closing curly bracket characters. -/
def lbrace : Char := Char.ofNat 123

def rbrace : Char := Char.ofNat 125

/-- A lowercase hexadecimal digit. -/
def hexDig (d : Nat) : Char := if d < 10 then dch d else Char.ofNat (87 + d)

/-- Numeric value of a lowercase hexadecimal digit. -/
def hexVal (c : Char) : Nat := if isDig c then dval c else c.toNat - 87

/-- Is `c` a lowercase hexadecimal digit? -/
def isHex (c : Char) : Bool := isDig c || (97 ≤ c.toNat && c.toNat ≤ 102)

/-- The JSON escaping `json.dumps` applies with `ensure_ascii=False`:
quote, backslash and control characters only, with the five shorthand
escapes and lowercase `\u00XX` for the rest. -/
def escChar (c : Char) : List Char :=
  if c = '"' then ['\\', '"']
  else if c = '\\' then ['\\', '\\']
  else if c = '\n' then ['\\', 'n']
  else if c = '\t' then ['\\', 't']
  else if c = '\r' then ['\\', 'r']
  else if c = '\x08' then ['\\', 'b']
  else if c = '\x0c' then ['\\', 'f']
  else if c.toNat < 32 then
    ['\\', 'u', '0', '0', hexDig (c.toNat / 16), hexDig (c.toNat % 16)]
  else [c]

/-- The escaped body of a JSON string literal. -/
def escList (cs : List Char) : List Char := (cs.map escChar).flatten

/-- Indentation: `ind` spaces. -/
def pad (ind : Nat) : List Char := List.replicate ind ' '

mutual

/-- `json.dumps(v, ensure_ascii=False, indent=2)` at nesting indent
`ind`: empty containers inline, one element per line otherwise, item
separator `,` + newline, key separator `: `. -/
def dumpVal (ind : Nat) : JVal → List Char
  | .null => "null".data
  | .bool true => "true".data
  | .bool false => "false".data
  | .num i => intDump i
  | .str s => '"' :: escList s.data ++ ['"']
  | .arr [] => "[]".data
  | .arr (x :: xs) =>
      '[' :: '\n' :: (pad (ind + 2) ++ dumpVal (ind + 2) x ++
        dumpElems (ind + 2) xs ++ '\n' :: (pad ind ++ [']']))
  | .obj [] => [lbrace, rbrace]
  | .obj ((k, v) :: kvs) =>
      lbrace :: '\n' :: (pad (ind + 2) ++
        ('"' :: escList k.data ++ '"' :: ':' :: ' ' :: dumpVal (ind + 2) v) ++
        dumpFields (ind + 2) kvs ++ '\n' :: (pad ind ++ [rbrace]))

/-- The remaining elements of a non-empty array, each preceded by the
item separator. -/
def dumpElems (ind : Nat) : List JVal → List Char
  | [] => []
  | x :: xs => ',' :: '\n' :: (pad ind ++ dumpVal ind x ++ dumpElems ind xs)

/-- The remaining members of a non-empty object, each as the item
separator followed by one `"key": value` member. -/
def dumpFields (ind : Nat) : List (String × JVal) → List Char
  | [] => []
  | (k, v) :: kvs =>
      ',' :: '\n' :: (pad ind ++
        ('"' :: escList k.data ++ '"' :: ':' :: ' ' :: dumpVal ind v) ++
        dumpFields ind kvs)

end

/-- `_write_json` body: `json.dumps(followers, ensure_ascii=False,
indent=2)` on a list of follower records. -/
def dumps (followers : List Raw) : String :=
  String.mk (dumpVal 0 (JVal.arr (followers.map JVal.obj)))

/-- JSON insignificant whitespace. -/
def isWs (c : Char) : Bool := c == ' ' || c == '\t' || c == '\n' || c == '\r'

def skipWs (cs : List Char) : List Char := cs.dropWhile isWs

/-- The two-character shorthand escapes accepted in a string literal. -/
def unescMap (e : Char) : Option Char :=
  if e = '"' then some '"'
  else if e = '\\' then some '\\'
  else if e = '/' then some '/'
  else if e = 'n' then some '\n'
  else if e = 't' then some '\t'
  else if e = 'r' then some '\r'
  else if e = 'b' then some '\x08'
  else if e = 'f' then some '\x0c'
  else none

/-- Parse the body of a JSON string literal up to its closing quote. -/
def pStr : List Char → Option (List Char × List Char)
  | [] => none
  | c :: rest =>
      if c = '"' then some ([], rest)
      else if c = '\\' then
        match rest with
        | 'u' :: h1 :: h2 :: h3 :: h4 :: rest2 =>
            if isHex h1 && isHex h2 && isHex h3 && isHex h4 then
              (pStr rest2).map fun p =>
                (Char.ofNat
                  (((hexVal h1 * 16 + hexVal h2) * 16 + hexVal h3) * 16 + hexVal h4)
                  :: p.1, p.2)
            else none
        | e :: rest2 =>
            match unescMap e with
            | some c2 => (pStr rest2).map fun p => (c2 :: p.1, p.2)
            | none => none
        | [] => none
      else (pStr rest).map fun p => (c :: p.1, p.2)

mutual

/-- Fuelled recursive-descent JSON value parser. -/
def pVal : Nat → List Char → Option (JVal × List Char)
  | 0, _ => none
  | fuel + 1, cs =>
      match skipWs cs with
      | [] => none
      | c :: rest =>
          if c = '"' then
            (pStr rest).map fun p => (JVal.str (String.mk p.1), p.2)
          else if c = 't' then
            match rest with
            | 'r' :: 'u' :: 'e' :: r2 => some (.bool true, r2)
            | _ => none
          else if c = 'f' then
            match rest with
            | 'a' :: 'l' :: 's' :: 'e' :: r2 => some (.bool false, r2)
            | _ => none
          else if c = 'n' then
            match rest with
            | 'u' :: 'l' :: 'l' :: r2 => some (.null, r2)
            | _ => none
          else if c = '-' then
            match rest with
            | d :: _ =>
                if isDig d then
                  let p := pNum rest 0
                  some (JVal.num (-(p.1 : Int)), p.2)
                else none
            | [] => none
          else if isDig c then
            let p := pNum (c :: rest) 0
            some (JVal.num (p.1 : Int), p.2)
          else if c = '[' then
            match skipWs rest with
            | c2 :: r2 =>
                if c2 = ']' then some (.arr [], r2)
                else (pElems fuel rest).map fun p => (JVal.arr p.1, p.2)
            | [] => none
          else if c = lbrace then
            match skipWs rest with
            | c2 :: r2 =>
                if c2 = rbrace then some (.obj [], r2)
                else (pFields fuel rest).map fun p => (JVal.obj p.1, p.2)
            | [] => none
          else none

/-- One or more comma-separated array elements up to the closing `]`. -/
def pElems : Nat → List Char → Option (List JVal × List Char)
  | 0, _ => none
  | fuel + 1, cs =>
      match pVal fuel cs with
      | none => none
      | some (v, r1) =>
          match skipWs r1 with
          | ',' :: r2 =>
              match pElems fuel r2 with
              | some (vs, r3) => some (v :: vs, r3)
              | none => none
          | ']' :: r2 => some ([v], r2)
          | _ => none

/-- One or more comma-separated object members up to the closing brace. -/
def pFields : Nat → List Char → Option (List (String × JVal) × List Char)
  | 0, _ => none
  | fuel + 1, cs =>
      match skipWs cs with
      | c :: r1 =>
          if c = '"' then
            match pStr r1 with
            | some (kcs, r2) =>
                match skipWs r2 with
                | ':' :: r3 =>
                    match pVal fuel r3 with
                    | some (v, r4) =>
                        match skipWs r4 with
                        | ',' :: r5 =>
                            match pFields fuel r5 with
                            | some (kvs, r6) => some ((String.mk kcs, v) :: kvs, r6)
                            | none => none
                        | c2 :: r5 =>
                            if c2 = rbrace then some ([(String.mk kcs, v)], r5)
                            else none
                        | [] => none
                    | none => none
                | _ => none
            | none => none
          else none
      | [] => none

end

/-- `json.loads`: parse one value, requiring only whitespace after it.
The input length plus one is always enough fuel. -/
def jsonLoads (s : String) : Option JVal :=
  match pVal (s.data.length + 1) s.data with
  | some (v, rest) => if skipWs rest = [] then some v else none
  | none => none

mutual

/-- Fuel needed by the parser to re-read a dumped value. -/
def jsize : JVal → Nat
  | .null => 1
  | .bool _ => 1
  | .num _ => 1
  | .str _ => 1
  | .arr xs => 1 + jsizeL xs
  | .obj kvs => 1 + jsizeF kvs

def jsizeL : List JVal → Nat
  | [] => 1
  | x :: xs => 1 + jsize x + jsizeL xs

def jsizeF : List (String × JVal) → Nat
  | [] => 1
  | (_, v) :: kvs => 1 + jsize v + jsizeF kvs

end

/-! ## `export_followers` from `src/outputs/exporters.py` -/

/-- Abstract document contents: the JSON writer's real output text; the
other writers modelled by the records they render. -/
inductive Content where
  | jsonC : String → Content
  | csvC : List Raw → Content
  | xmlC : List Raw → Content
  | htmlC : List Raw → Content
  | rssC : List Raw → Content

/-- Observable I/O of an export call: a line printed to stdout, or a file
written at a path. -/
inductive Effect where
  | stdout : String → Effect
  | write : String → Content → Effect

/-- `_write_json` from `src/outputs/exporters.py`: stdout when no path,
else a file write of `json.dumps(followers, ensure_ascii=False, indent=2)`. -/
def _write_json (followers : List Raw) (output_path : Option String) : List Effect :=
  match output_path with
  | none => [.stdout (dumps followers)]
  | some p => [.write p (.jsonC (dumps followers))]

/-- `export_followers` from `src/outputs/exporters.py`.  Raised
`ValueError`s become `Except.error` with the message text; the effect
list records the I/O performed.  Note the empty-records branch compares
the raw `fmt` with `"json"` before any normalization. -/
def export_followers (followers : List Raw) (fmt : String)
    (output_path : Option String) : Except String (List Effect) :=
  if followers.isEmpty then
    .ok (if fmt = "json" && output_path.isNone then [.stdout "[]"] else [])
  else
    match sanitize_output_format (some fmt) with
    | none => .error ("Unknown or empty output format: " ++ fmt)
    | some normalized_fmt =>
        if normalized_fmt = "" then
          .error ("Unknown or empty output format: " ++ fmt)
        else if normalized_fmt = "json" then .ok (_write_json followers output_path)
        else if normalized_fmt = "csv" then
          match output_path with
          | none => .error "CSV export requires a file path."
          | some p => .ok [.write p (.csvC followers)]
        else if normalized_fmt = "xml" then
          match output_path with
          | none => .error "XML export requires a file path."
          | some p => .ok [.write p (.xmlC followers)]
        else if normalized_fmt = "html" then
          match output_path with
          | none => .error "HTML export requires a file path."
          | some p => .ok [.write p (.htmlC followers)]
        else if normalized_fmt = "rss" then
          match output_path with
          | none => .error "RSS export requires a file path."
          | some p => .ok [.write p (.rssC followers)]
        else .error ("Unsupported output format: " ++ fmt)

/-- The sample server data for the specification's concrete scenario:
five followers served in pages of three. -/
def c1SampleRaw : Raw := [("handle", JVal.str "user.example")]

def c1SampleAll : List Raw :=
  [c1SampleRaw, c1SampleRaw, c1SampleRaw, c1SampleRaw, c1SampleRaw]

/-- The normalization of `c1SampleRaw`. -/
def c1SampleRec : Raw :=
  [("did", .null), ("handle", .str "user.example"), ("displayName", .null),
   ("avatar", .null), ("createdAt", .null), ("description", .null),
   ("labels", .arr []), ("associated", .obj []),
   ("link_to_profile", .str "https://bsky.app/profile/user.example")]

/-- A server answering the first request with one good follower page and
every cursor-carrying request with a fixed response. -/
def twoPage (first : List Raw) (second : ApiResp) : Api := fun _ _ c =>
  match c with
  | none => .ok ⟨.items first, some "cursor1"⟩
  | some _ => second

def c2OkRaw : Raw := [("did", JVal.str "d1")]

/-- The normalization of `c2OkRaw`. -/
def c2OkRec : Raw :=
  [("did", .str "d1"), ("handle", .null), ("displayName", .null),
   ("avatar", .null), ("createdAt", .null), ("description", .null),
   ("labels", .arr []), ("associated", .obj []),
   ("link_to_profile", .str "https://bsky.app/profile/d1")]

theorem dval_dch {d : Nat} (h : d < 10) : dval (dch d) = d := by
  interval_cases d <;> rfl

theorem isDig_dch {d : Nat} (h : d < 10) : isDig (dch d) = true := by
  interval_cases d <;> rfl

theorem isPySpace_dch {d : Nat} (h : d < 10) : isPySpace (dch d) = false := by
  interval_cases d <;> rfl

/-- A list whose first and last characters are not whitespace is left
unchanged by `pystrip`. -/
theorem pystrip_eq_self {cs : List Char} {a b : Char}
    (h1 : cs.head? = some a) (h2 : isPySpace a = false)
    (h3 : cs.getLast? = some b) (h4 : isPySpace b = false) :
    pystrip cs = cs := by
  obtain ⟨rest, rfl⟩ : ∃ rest, cs = a :: rest := by
    cases cs with
    | nil => simp at h1
    | cons x xs =>
      simp only [List.head?_cons, Option.some.injEq] at h1
      exact ⟨xs, by rw [h1]⟩
  unfold pystrip
  rw [List.dropWhile_cons, if_neg (by simp [h2])]
  have hrev : (a :: rest).reverse.head? = some b := by
    rw [List.head?_reverse]; exact h3
  obtain ⟨rest', hr⟩ : ∃ rest', (a :: rest).reverse = b :: rest' := by
    cases hrr : (a :: rest).reverse with
    | nil => rw [hrr] at hrev; simp at hrev
    | cons x xs =>
      rw [hrr] at hrev
      simp only [List.head?_cons, Option.some.injEq] at hrev
      exact ⟨xs, by rw [hrev]⟩
  rw [hr, List.dropWhile_cons, if_neg (by simp [h4]), ← hr, List.reverse_reverse]

/-! ## Round-trip: `isoformat` output re-parses to the same value -/

theorem p2_pad2 {n : Nat} (h : n < 100) (rest : List Char) :
    p2 (pad2 n ++ rest) = some (n, rest) := by
  have h1 : n / 10 < 10 := by omega
  have h2 : n % 10 < 10 := by omega
  simp only [pad2, List.cons_append, List.nil_append, p2, isDig_dch h1, isDig_dch h2,
    dval_dch h1, dval_dch h2, Bool.and_self, if_true, Option.some.injEq, Prod.mk.injEq,
    and_true]
  omega

theorem p4_pad4 {n : Nat} (h : n < 10000) (rest : List Char) :
    p4 (pad4 n ++ rest) = some (n, rest) := by
  have h1 : n / 100 < 100 := by omega
  have h2 : n % 100 < 100 := by omega
  simp only [p4, pad4, List.append_assoc, p2_pad2 h1, p2_pad2 h2, Option.bind_eq_bind,
    Option.some_bind, Option.some.injEq, Prod.mk.injEq, and_true]
  omega

theorem p6_pad6 {n : Nat} (h : n < 1000000) (rest : List Char) :
    p6 (pad6 n ++ rest) = some (n, rest) := by
  have h1 : n / 10000 < 100 := by omega
  have h2 : n / 100 % 100 < 100 := by omega
  have h3 : n % 100 < 100 := by omega
  have hdd : n / 100 / 100 = n / 10000 := by
    rw [Nat.div_div_eq_div_mul]
  simp only [p6, pad6, List.append_assoc, p2_pad2 h1, p2_pad2 h2, p2_pad2 h3,
    Option.bind_eq_bind, Option.some_bind, Option.some.injEq, Prod.mk.injEq, and_true]
  omega

theorem p2_pad2_nil {n : Nat} (h : n < 100) : p2 (pad2 n) = some (n, []) := by
  have h2 := p2_pad2 h []
  rwa [List.append_nil] at h2

theorem pFrac_pad6 {n : Nat} (h : n < 1000000) (rest : List Char) :
    pFrac (pad6 n ++ rest) = some (n, rest) := by
  simp only [pFrac, p6_pad6 h]

theorem p6_pad6_nil {n : Nat} (h : n < 1000000) : p6 (pad6 n) = some (n, []) := by
  have h2 := p6_pad6 h []
  rwa [List.append_nil] at h2

theorem parseTzMag_hm {hh mm : Nat} (h1 : hh < 100) (h2 : mm < 100) :
    parseTzMag (pad2 hh ++ ':' :: pad2 mm) = some ((hh * 60 + mm) * 60000000) := by
  simp only [parseTzMag, Option.bind_eq_bind]
  rw [p2_pad2 h1]
  simp only [Option.some_bind, expectChar, eq_self_iff_true, if_true]
  rw [p2_pad2_nil h2]
  rfl

theorem parseTzMag_hms {hh mm ss : Nat} (h1 : hh < 100) (h2 : mm < 100)
    (h3 : ss < 100) :
    parseTzMag (pad2 hh ++ ':' :: (pad2 mm ++ ':' :: pad2 ss)) =
      some (((hh * 60 + mm) * 60 + ss) * 1000000) := by
  simp only [parseTzMag, Option.bind_eq_bind]
  rw [p2_pad2 h1]
  simp only [Option.some_bind, expectChar, eq_self_iff_true, if_true]
  rw [p2_pad2 h2]
  simp only [Option.some_bind]
  rw [p2_pad2_nil h3]
  rfl

theorem parseTzMag_hmsf {hh mm ss us : Nat} (h1 : hh < 100) (h2 : mm < 100)
    (h3 : ss < 100) (h4 : us < 1000000) :
    parseTzMag (pad2 hh ++ ':' :: (pad2 mm ++ ':' :: (pad2 ss ++ '.' :: pad6 us))) =
      some (((hh * 60 + mm) * 60 + ss) * 1000000 + us) := by
  simp only [parseTzMag, Option.bind_eq_bind]
  rw [p2_pad2 h1]
  simp only [Option.some_bind, expectChar, eq_self_iff_true, if_true]
  rw [p2_pad2 h2]
  simp only [Option.some_bind]
  rw [p2_pad2 h3]
  simp only [Option.some_bind]
  rw [p6_pad6_nil h4]
  rfl

theorem parseTz_plus {cs : List Char} {m : Nat} (h : parseTzMag cs = some m) :
    parseTz ('+' :: cs) = some (some (Int.ofNat m)) := by
  simp only [parseTz, Option.bind_eq_bind, h, Option.some_bind]

theorem parseTz_minus {cs : List Char} {m : Nat} (h : parseTzMag cs = some m) :
    parseTz ('-' :: cs) = some (some (-(Int.ofNat m))) := by
  simp only [parseTz, Option.bind_eq_bind, h, Option.some_bind]

/-- The rendered offset, with its sign and field structure exposed. -/
theorem renderTz_some (off : Int) : renderTz (some off) =
    (if off < 0 then '-' else '+') ::
      (pad2 (off.natAbs / 3600000000) ++ ':' ::
      (pad2 (off.natAbs / 60000000 % 60) ++
       (if off.natAbs % 60000000 = 0 then []
        else ':' :: (pad2 (off.natAbs % 60000000 / 1000000) ++
          (if off.natAbs % 1000000 = 0 then []
           else '.' :: pad6 (off.natAbs % 1000000)))))) := by
  simp [renderTz]

/-- The rendered offset re-parses to the same signed microsecond value. -/
theorem parseTz_renderTz {off : Int} (h : off.natAbs < 86400000000) :
    parseTz (renderTz (some off)) = some (some off) := by
  have h1 : off.natAbs / 3600000000 < 100 := by omega
  have h2 : off.natAbs / 60000000 % 60 < 100 := by omega
  have hmag : parseTzMag (pad2 (off.natAbs / 3600000000) ++ ':' ::
      (pad2 (off.natAbs / 60000000 % 60) ++
       (if off.natAbs % 60000000 = 0 then []
        else ':' :: (pad2 (off.natAbs % 60000000 / 1000000) ++
          (if off.natAbs % 1000000 = 0 then []
           else '.' :: pad6 (off.natAbs % 1000000)))))) = some off.natAbs := by
    by_cases hm : off.natAbs % 60000000 = 0
    · rw [if_pos hm, List.append_nil, parseTzMag_hm h1 h2]
      congr 1
      omega
    · rw [if_neg hm]
      have h3 : off.natAbs % 60000000 / 1000000 < 100 := by omega
      by_cases hu : off.natAbs % 1000000 = 0
      · rw [if_pos hu, List.append_nil, parseTzMag_hms h1 h2 h3]
        congr 1
        omega
      · rw [if_neg hu, parseTzMag_hmsf h1 h2 h3 (by omega)]
        congr 1
        omega
  rcases lt_or_le off 0 with hneg | hpos
  · rw [renderTz_some off, if_pos hneg, parseTz_minus hmag]
    simp only [Option.some.injEq]
    show -(off.natAbs : Int) = off
    omega
  · rw [renderTz_some off, if_neg (by omega : ¬ off < 0), parseTz_plus hmag]
    simp only [Option.some.injEq]
    show (off.natAbs : Int) = off
    omega

theorem parseTime_timeRender {hh mi ss us : Nat} {tz : Option Int}
    (h1 : hh < 100) (h2 : mi < 100) (h3 : ss < 100) (h4 : us < 1000000)
    (h5 : ∀ off, tz = some off → off.natAbs < 86400000000) :
    parseTime (timeRender hh mi ss us tz) = some (hh, mi, ss, us, tz) := by
  unfold timeRender parseTime
  rw [p2_pad2 h1]
  simp only [Option.bind_eq_bind, Option.some_bind]
  rw [p2_pad2 h2]
  simp only [Option.some_bind]
  rw [p2_pad2 h3]
  simp only [Option.some_bind]
  by_cases hus : us = 0
  · subst hus
    simp only [if_pos rfl, List.nil_append]
    cases tz with
    | none => simp [parseTz, renderTz]
    | some off =>
      have hz := parseTz_renderTz (h5 off rfl)
      rcases lt_or_le off 0 with hneg | hpos
      · rw [renderTz_some off, if_pos hneg] at hz ⊢
        simp [hz]
      · rw [renderTz_some off, if_neg (by omega : ¬ off < 0)] at hz ⊢
        simp [hz]
  · rw [if_neg hus]
    simp only [List.cons_append, List.append_assoc]
    rw [pFrac_pad6 h4]
    simp only [Option.some_bind]
    rw [show parseTz (renderTz tz) = some tz from ?_]
    · simp
    · cases tz with
      | none => rfl
      | some off => exact parseTz_renderTz (h5 off rfl)

theorem rawParseIso_isoformat {dt : PyDateTime}
    (hy : dt.year < 10000) (hmo : dt.month < 100) (hd : dt.day < 100)
    (hh : dt.hour < 100) (hmi : dt.minute < 100) (hs : dt.second < 100)
    (hus : dt.microsecond < 1000000)
    (htz : ∀ off, dt.tz = some off → off.natAbs < 86400000000) :
    rawParseIso (isoformat dt) = some dt := by
  have hiso : isoformat dt = pad4 dt.year ++ '-' :: (pad2 dt.month ++ '-' ::
      (pad2 dt.day ++ 'T' :: timeRender dt.hour dt.minute dt.second dt.microsecond dt.tz)) := by
    unfold isoformat timeRender
    simp only [List.append_assoc, List.cons_append]
  rw [hiso]
  unfold rawParseIso
  rw [p4_pad4 hy]
  simp only [Option.bind_eq_bind, Option.some_bind, expectChar, if_pos rfl, if_true]
  rw [p2_pad2 hmo]
  simp only [Option.some_bind, expectChar, if_pos rfl, if_true]
  rw [p2_pad2 hd]
  simp only [Option.some_bind]
  rw [parseTime_timeRender hh hmi hs hus htz]
  simp

theorem daysInMonth_le (y m : Nat) : daysInMonth y m ≤ 31 := by
  unfold daysInMonth
  split
  · split <;> omega
  · split <;> omega

/-- Bounds extracted from a passed validity check. -/
theorem valid_bounds {dt : PyDateTime} (h : dt.valid = true) :
    dt.year < 10000 ∧ dt.month < 100 ∧ dt.day < 100 ∧ dt.hour < 100 ∧
    dt.minute < 100 ∧ dt.second < 100 ∧ dt.microsecond < 1000000 ∧
    (∀ off, dt.tz = some off → off.natAbs < 86400000000) := by
  have hdm := daysInMonth_le dt.year dt.month
  unfold PyDateTime.valid at h
  cases htz : dt.tz with
  | none =>
    rw [htz] at h
    simp only [Bool.and_eq_true, Bool.and_true, decide_eq_true_eq] at h
    exact ⟨by omega, by omega, by omega, by omega, by omega, by omega, by omega,
      fun off hoff => Option.noConfusion hoff⟩
  | some off0 =>
    rw [htz] at h
    simp only [Bool.and_eq_true, decide_eq_true_eq] at h
    refine ⟨by omega, by omega, by omega, by omega, by omega, by omega, by omega, ?_⟩
    intro off hoff
    injection hoff with he
    subst he
    omega

theorem parseIso_isoformat {dt : PyDateTime} (h : dt.valid = true) :
    parseIso (isoformat dt) = some dt := by
  obtain ⟨hy, hmo, hd, hh, hmi, hs, hus, htz⟩ := valid_bounds h
  unfold parseIso
  rw [rawParseIso_isoformat hy hmo hd hh hmi hs hus htz]
  simp [h]

theorem dch_ne_colon {d : Nat} (h : d < 10) : (dch d == ':') = false := by
  interval_cases d <;> rfl

theorem dch_ne_Z {d : Nat} (h : d < 10) : (dch d == 'Z') = false := by
  interval_cases d <;> rfl

theorem dch_ne_colon_eq {d : Nat} (h : d < 10) : dch d ≠ ':' := by
  interval_cases d <;> decide

theorem isoformat_head {dt : PyDateTime} :
    (isoformat dt).head? = some (dch (dt.year / 100 / 10)) := by
  simp [isoformat, pad4, pad2]

theorem isoformat_last_digit (dt : PyDateTime) :
    ∃ d, d < 10 ∧ (isoformat dt).getLast? = some (dch d) := by
  rw [← List.head?_reverse]
  cases htz : dt.tz with
  | some off =>
    by_cases hm : off.natAbs % 60000000 = 0
    · refine ⟨off.natAbs / 60000000 % 60 % 10, by omega, ?_⟩
      simp [isoformat, renderTz, htz, hm, pad2, List.reverse_append,
        List.reverse_cons, List.cons_append, List.append_assoc]
    · by_cases hu : off.natAbs % 1000000 = 0
      · refine ⟨off.natAbs % 60000000 / 1000000 % 10, by omega, ?_⟩
        simp [isoformat, renderTz, htz, hm, hu, pad2, List.reverse_append,
          List.reverse_cons, List.cons_append, List.append_assoc]
      · refine ⟨off.natAbs % 1000000 % 100 % 10, by omega, ?_⟩
        simp [isoformat, renderTz, htz, hm, hu, pad2, pad6, List.reverse_append,
          List.reverse_cons, List.cons_append, List.append_assoc]
  | none =>
    by_cases hus : dt.microsecond = 0
    · refine ⟨dt.second % 10, by omega, ?_⟩
      simp [isoformat, renderTz, htz, hus, pad2, List.reverse_append, List.reverse_cons,
        List.cons_append, List.append_assoc]
    · refine ⟨dt.microsecond % 100 % 10, by omega, ?_⟩
      simp [isoformat, renderTz, htz, hus, pad2, pad6, List.reverse_append,
        List.reverse_cons, List.cons_append, List.append_assoc]

theorem endsWithOffset_isoformat {dt : PyDateTime} (h : dt.valid = true) :
    endsWithOffset (isoformat dt) = dt.tz.isSome := by
  obtain ⟨-, -, -, hhr, hmir, hsr, husr, htzb⟩ := valid_bounds h
  cases htz : dt.tz with
  | some off =>
    have hb := htzb off htz
    have e1 : off.natAbs / 60000000 % 60 % 10 < 10 := by omega
    have e2 : off.natAbs / 60000000 % 60 / 10 < 10 := by omega
    have e3 : off.natAbs / 3600000000 % 10 < 10 := by omega
    have e4 : off.natAbs / 3600000000 / 10 < 10 := by omega
    have e5 : off.natAbs % 60000000 / 1000000 % 10 < 10 := by omega
    have e6 : off.natAbs % 60000000 / 1000000 / 10 < 10 := by omega
    have f1 : off.natAbs % 1000000 % 100 % 10 < 10 := by omega
    have f2 : off.natAbs % 1000000 % 100 / 10 < 10 := by omega
    have f3 : off.natAbs % 1000000 / 100 % 100 % 10 < 10 := by omega
    have f4 : off.natAbs % 1000000 / 100 % 100 / 10 < 10 := by omega
    have f5 : off.natAbs % 1000000 / 10000 % 10 < 10 := by omega
    have f6 : off.natAbs % 1000000 / 10000 / 10 < 10 := by omega
    by_cases hm : off.natAbs % 60000000 = 0
    · rcases lt_or_le off 0 with hneg | hpos
      · simp [endsWithOffset, isoformat, renderTz, htz, hm, if_pos hneg, pad2,
          List.reverse_append, List.reverse_cons, List.cons_append, List.append_assoc,
          revHHMM, isDig_dch e1, isDig_dch e2, isDig_dch e3, isDig_dch e4]
      · simp [endsWithOffset, isoformat, renderTz, htz, hm,
          if_neg (by omega : ¬ off < 0), pad2,
          List.reverse_append, List.reverse_cons, List.cons_append, List.append_assoc,
          revHHMM, isDig_dch e1, isDig_dch e2, isDig_dch e3, isDig_dch e4]
    · by_cases hu : off.natAbs % 1000000 = 0
      · rcases lt_or_le off 0 with hneg | hpos
        · simp [endsWithOffset, isoformat, renderTz, htz, hm, hu, if_pos hneg, pad2,
            List.reverse_append, List.reverse_cons, List.cons_append, List.append_assoc,
            revHHMM, revSS, isDig_dch e1, isDig_dch e2, isDig_dch e3, isDig_dch e4,
            isDig_dch e5, isDig_dch e6]
        · simp [endsWithOffset, isoformat, renderTz, htz, hm, hu,
            if_neg (by omega : ¬ off < 0), pad2,
            List.reverse_append, List.reverse_cons, List.cons_append, List.append_assoc,
            revHHMM, revSS, isDig_dch e1, isDig_dch e2, isDig_dch e3, isDig_dch e4,
            isDig_dch e5, isDig_dch e6]
      · rcases lt_or_le off 0 with hneg | hpos
        · simp [endsWithOffset, isoformat, renderTz, htz, hm, hu, if_pos hneg, pad2,
            pad6, List.reverse_append, List.reverse_cons, List.cons_append,
            List.append_assoc, revHHMM, revSS, revFrac,
            isDig_dch e1, isDig_dch e2, isDig_dch e3, isDig_dch e4,
            isDig_dch e5, isDig_dch e6, isDig_dch f1, isDig_dch f2, isDig_dch f3,
            isDig_dch f4, isDig_dch f5, isDig_dch f6, dch_ne_colon f1]
        · simp [endsWithOffset, isoformat, renderTz, htz, hm, hu,
            if_neg (by omega : ¬ off < 0), pad2,
            pad6, List.reverse_append, List.reverse_cons, List.cons_append,
            List.append_assoc, revHHMM, revSS, revFrac,
            isDig_dch e1, isDig_dch e2, isDig_dch e3, isDig_dch e4,
            isDig_dch e5, isDig_dch e6, isDig_dch f1, isDig_dch f2, isDig_dch f3,
            isDig_dch f4, isDig_dch f5, isDig_dch f6, dch_ne_colon f1]
  | none =>
    have g1 : dt.second % 10 < 10 := by omega
    have g2 : dt.second / 10 < 10 := by omega
    have g3 : dt.minute % 10 < 10 := by omega
    have g4 : dt.minute / 10 < 10 := by omega
    by_cases hus : dt.microsecond = 0
    · simp [endsWithOffset, isoformat, renderTz, htz, hus, pad2,
        List.reverse_append, List.reverse_cons, List.cons_append, List.append_assoc,
        revHHMM, revSS, revFrac, isDig_dch g1, isDig_dch g2, isDig_dch g3,
        isDig_dch g4, dch_ne_colon_eq g1, dch_ne_colon_eq g2, dch_ne_colon_eq g3,
        dch_ne_colon_eq g4, (show isDig ':' = false from rfl),
        (show isDig 'T' = false from rfl)]
    · have k1 : dt.microsecond % 100 % 10 < 10 := by omega
      have k2 : dt.microsecond % 100 / 10 < 10 := by omega
      have k3 : dt.microsecond / 100 % 100 % 10 < 10 := by omega
      have k4 : dt.microsecond / 100 % 100 / 10 < 10 := by omega
      have k5 : dt.microsecond / 10000 % 10 < 10 := by omega
      have k6 : dt.microsecond / 10000 / 10 < 10 := by omega
      simp [endsWithOffset, isoformat, renderTz, htz, hus, pad2, pad6,
        List.reverse_append, List.reverse_cons, List.cons_append, List.append_assoc,
        revHHMM, revSS, revFrac, isDig_dch g1, isDig_dch g2, isDig_dch g3,
        isDig_dch g4, isDig_dch k1, isDig_dch k2, isDig_dch k3, isDig_dch k4,
        isDig_dch k5, isDig_dch k6, dch_ne_colon k1, dch_ne_colon_eq k1,
        dch_ne_colon_eq k2, dch_ne_colon_eq k3, dch_ne_colon_eq k4,
        dch_ne_colon_eq k5, dch_ne_colon_eq k6, dch_ne_colon_eq g1,
        dch_ne_colon_eq g2, dch_ne_colon_eq g3, dch_ne_colon_eq g4,
        (show isDig ':' = false from rfl), (show isDig 'T' = false from rfl),
        (show isDig '.' = false from rfl)]

/-! ## Behaviour of `ensure_iso8601` -/

theorem truncMs_valid {dt : PyDateTime} (h : dt.valid = true) :
    (truncMs dt).valid = true := by
  cases dt with
  | mk y mo d hh mi ss us tz =>
    have hle : us / 1000 * 1000 ≤ us := Nat.div_mul_le_self _ _
    unfold PyDateTime.valid truncMs at *
    simp only [Bool.and_eq_true, decide_eq_true_eq] at *
    cases tz with
    | none => obtain ⟨⟨h1, h2⟩, -⟩ := h; exact ⟨⟨h1, by omega⟩, rfl⟩
    | some off => obtain ⟨⟨h1, h2⟩, h3⟩ := h; exact ⟨⟨h1, by omega⟩, h3⟩

theorem truncMs_truncMs (dt : PyDateTime) : truncMs (truncMs dt) = truncMs dt := by
  have h : dt.microsecond / 1000 * 1000 / 1000 * 1000 = dt.microsecond / 1000 * 1000 := by
    omega
  unfold truncMs
  simp [h]

theorem parseIso_valid {cs : List Char} {dt : PyDateTime}
    (h : parseIso cs = some dt) : dt.valid = true := by
  unfold parseIso at h
  cases hrp : rawParseIso cs with
  | none => rw [hrp] at h; simp at h
  | some dt' =>
    rw [hrp] at h
    simp only [Option.bind_eq_bind, Option.some_bind] at h
    by_cases hv : dt'.valid
    · rw [if_pos hv] at h
      injection h with he
      subst he
      exact hv
    · rw [if_neg hv] at h
      cases h

theorem parseIso_nil : parseIso (zRewrite []) = none := by rfl

/-- `ensure_iso8601` on a successfully parsed input. -/
theorem ensure_parse_some {v : String} {dt : PyDateTime}
    (h : parseIso (zRewrite (pystrip v.data)) = some dt) :
    ensure_iso8601 (some v) = some (String.mk (isoformat (truncMs dt))) := by
  have hne : pystrip v.data ≠ [] := by
    intro he
    rw [he] at h
    rw [parseIso_nil] at h
    cases h
  have hv : v ≠ "" := by
    intro he
    subst he
    exact hne rfl
  simp only [ensure_iso8601]
  rw [if_neg hv, if_neg hne, h]

/-- `ensure_iso8601` on a non-blank input that fails to parse. -/
theorem ensure_parse_none {v : String}
    (hne : pystrip v.data ≠ [])
    (h : parseIso (zRewrite (pystrip v.data)) = none) :
    ensure_iso8601 (some v) = some v := by
  have hv : v ≠ "" := by
    intro he
    subst he
    exact hne rfl
  simp only [ensure_iso8601]
  rw [if_neg hv, if_neg hne, h]

/-- `ensure_iso8601` on a blank input. -/
theorem ensure_blank {v : String} (hb : pystrip v.data = []) :
    ensure_iso8601 (some v) = none := by
  simp only [ensure_iso8601]
  by_cases hv : v = ""
  · rw [if_pos hv]
  · rw [if_neg hv, if_pos hb]

/-- The canonical output re-normalizes to itself. -/
theorem ensure_fixed {dt : PyDateTime} (h : dt.valid = true) :
    ensure_iso8601 (some (String.mk (isoformat (truncMs dt)))) =
    some (String.mk (isoformat (truncMs dt))) := by
  have hvalid : (truncMs dt).valid = true := truncMs_valid h
  obtain ⟨hy, -, -, -, -, -, -, -⟩ := valid_bounds hvalid
  obtain ⟨d, hd, hlast⟩ := isoformat_last_digit (truncMs dt)
  have hdata : (String.mk (isoformat (truncMs dt))).data = isoformat (truncMs dt) := rfl
  have hstrip : pystrip (isoformat (truncMs dt)) = isoformat (truncMs dt) := by
    apply pystrip_eq_self (a := dch ((truncMs dt).year / 100 / 10)) (b := dch d)
    · exact isoformat_head
    · exact isPySpace_dch (by omega)
    · exact hlast
    · exact isPySpace_dch hd
  have hz : zRewrite (isoformat (truncMs dt)) = isoformat (truncMs dt) := by
    unfold zRewrite
    rw [hlast, if_neg]
    intro he
    injection he with he2
    have := dch_ne_Z hd
    rw [he2] at this
    simp at this
  have hparse : parseIso (zRewrite (pystrip (isoformat (truncMs dt)))) =
      some (truncMs dt) := by
    rw [hstrip, hz]
    exact parseIso_isoformat hvalid
  have hfix := @ensure_parse_some (String.mk (isoformat (truncMs dt))) (truncMs dt)
    (by rw [hdata]; exact hparse)
  rw [hfix, truncMs_truncMs]

/-! ## Claims C5, C6, C10 -/

/-- C5 counterexample: the valid timestamp `2023-01-02T03:04:05.678901`
(no offset) parses successfully and is truncated, but `isoformat` renders
a naive datetime with no offset, so the output does not carry the
"explicit UTC offset / fixed-offset suffix" the claim promises for every
successfully parsed input. -/
theorem c5_counterexample :
    parseIso (zRewrite (pystrip "2023-01-02T03:04:05.678901".data)) =
      some ⟨2023, 1, 2, 3, 4, 5, 678901, none⟩ ∧
    ensure_iso8601 (some "2023-01-02T03:04:05.678901") =
      some "2023-01-02T03:04:05.678000" ∧
    hasOffsetSuffix "2023-01-02T03:04:05.678000" = false :=
  ⟨by decide, by decide, by decide⟩

/-- C5 (amended): for every non-blank timestamp string that parses
successfully (trailing `Z` shorthand included), `ensure_iso8601` truncates
the sub-second field to millisecond resolution by discarding the remainder
(no rounding) and re-renders the value in canonical ISO-8601 form; the
output carries a fixed-offset suffix exactly when the input carried an
explicit offset (`Z` included), and offset-less inputs re-render without
a suffix. -/
theorem c5_truncation {v : String} {dt : PyDateTime}
    (h : parseIso (zRewrite (pystrip v.data)) = some dt) :
    ensure_iso8601 (some v) = some (String.mk (isoformat (truncMs dt))) ∧
    (truncMs dt).microsecond = dt.microsecond / 1000 * 1000 ∧
    (truncMs dt).microsecond % 1000 = 0 ∧
    hasOffsetSuffix (String.mk (isoformat (truncMs dt))) = dt.tz.isSome := by
  have hvalid : dt.valid = true := parseIso_valid h
  have htv : (truncMs dt).valid = true := truncMs_valid hvalid
  refine ⟨ensure_parse_some h, rfl, ?_, ?_⟩
  · simp only [truncMs]
    omega
  · have hdata : (String.mk (isoformat (truncMs dt))).data = isoformat (truncMs dt) := rfl
    unfold hasOffsetSuffix
    rw [hdata, endsWithOffset_isoformat htv]
    rfl

theorem c5_truncation_witness :
    ensure_iso8601 (some "2023-07-27T23:07:25.712999Z") =
      some "2023-07-27T23:07:25.712000+00:00" :=
  ((@c5_truncation "2023-07-27T23:07:25.712999Z"
    ⟨2023, 7, 27, 23, 7, 25, 712999, some 0⟩ (by decide)).1).trans (by decide)

/-- C6: `ensure_iso8601` returns null for null, empty or whitespace-only
input; for every non-blank string that fails to parse it returns the exact
original (unstripped, un-rewritten) string, and it never raises (the
embedding is a total function) and never returns null on that path. -/
theorem c6_failure_identity :
    ensure_iso8601 none = none ∧
    (∀ v : String, pystrip v.data = [] → ensure_iso8601 (some v) = none) ∧
    (∀ v : String, pystrip v.data ≠ [] →
      parseIso (zRewrite (pystrip v.data)) = none →
      ensure_iso8601 (some v) = some v) :=
  ⟨rfl, fun _ hb => ensure_blank hb, fun _ hne hp => ensure_parse_none hne hp⟩

theorem c6_failure_identity_witness :
    ensure_iso8601 (some "   ") = none ∧
    ensure_iso8601 (some " not-a-date Z") = some " not-a-date Z" :=
  ⟨c6_failure_identity.2.1 "   " (by decide),
   c6_failure_identity.2.2 " not-a-date Z" (by decide) (by decide)⟩

/-- C10: `ensure_iso8601` is idempotent: null/blank input maps to null
which maps to null, a failed parse returns its input unchanged, and a
successfully canonicalized output re-parses and re-renders to itself. -/
theorem c10_ensure_idempotent (x : Option String) :
    ensure_iso8601 (ensure_iso8601 x) = ensure_iso8601 x := by
  cases x with
  | none => rfl
  | some v =>
    by_cases hb : pystrip v.data = []
    · rw [ensure_blank hb]
      rfl
    · cases hp : parseIso (zRewrite (pystrip v.data)) with
      | none =>
        rw [ensure_parse_none hb hp, ensure_parse_none hb hp]
      | some dt =>
        rw [ensure_parse_some hp]
        exact ensure_fixed (parseIso_valid hp)

/-! ## The pagination loop against a well-behaved server -/

theorem truthy_cursTok {pos : Nat} (h : 0 < pos) :
    pyTruthyStr (some (cursTok pos)) = true := by
  simp only [pyTruthyStr, bne_iff_ne, ne_eq]
  intro he
  have hd := congrArg String.data he
  simp only [cursTok] at hd
  have hlen : (List.replicate pos 'c').length = (String.data "").length := by rw [hd]
  simp at hlen
  omega

theorem cursAt_pos {pos : Nat} (h : 0 < pos) : cursAt pos = some (cursTok pos) := by
  rw [cursAt, if_neg (by omega)]

theorem cursorParam_cursAt (pos : Nat) :
    (if pyTruthyStr (cursAt pos) then cursAt pos else none) = cursAt pos := by
  by_cases h0 : pos = 0
  · subst h0
    rfl
  · rw [cursAt_pos (by omega), truthy_cursTok (by omega)]
    rfl

theorem honestApi_at (all : List Raw) (actor : String) (size pos : Nat) :
    honestApi all actor size (cursAt pos) =
      .ok ⟨.items ((all.drop pos).take size),
        if pos + ((all.drop pos).take size).length < all.length
        then some (cursTok (pos + ((all.drop pos).take size).length)) else none⟩ := by
  by_cases h0 : pos = 0
  · subst h0
    rfl
  · rw [cursAt_pos (by omega)]
    simp [honestApi, cursTok]

theorem consumePage_ok {f : Raw → Raw} :
    ∀ (xs : List Raw) (r : Nat), 0 < r →
      (∀ x ∈ xs, _normalize_follower x = .ok (f x)) →
      consumePage xs r = .ok ((xs.take r).map f, r - min r xs.length) := by
  intro xs
  induction xs with
  | nil =>
    intro r hr _
    simp [consumePage]
  | cons x rest ih =>
    intro r hr hmem
    simp only [consumePage, hmem x (List.mem_cons_self x rest)]
    by_cases h1 : r - 1 = 0
    · rw [if_pos h1]
      have hr1 : r = 1 := by omega
      subst hr1
      have hmin : min 1 (rest.length + 1) = 1 := by omega
      simp [List.take_succ_cons, hmin]
    · rw [if_neg h1]
      rw [ih (r - 1) (by omega) (fun y hy => hmem y (List.mem_cons_of_mem x hy))]
      obtain ⟨r2, rfl⟩ : ∃ r2, r = r2 + 1 := ⟨r - 1, by omega⟩
      simp only [Nat.add_sub_cancel, List.take_succ_cons, List.map_cons,
        List.length_cons]
      have harith : r2 + 1 - min (r2 + 1) (rest.length + 1) =
          r2 - min r2 rest.length := by omega
      rw [harith]

theorem fetchLoop_honest {all : List Raw} {f : Raw → Raw} {actor : String}
    {cap : Nat} (hcap : 0 < cap)
    (hnorm : ∀ raw ∈ all, _normalize_follower raw = .ok (f raw)) :
    ∀ fuel r pos, 0 < r → r ≤ fuel → (pos = 0 ∨ pos < all.length) →
      fetchLoop (honestApi all) actor cap fuel r (cursAt pos) =
        (.ok (((all.drop pos).take (min r (all.length - pos))).map f),
         specRequestsAux cap all.length fuel r pos) := by
  intro fuel
  induction fuel with
  | zero => intro r pos hr hle _; omega
  | succ fuel ih =>
    intro r pos hr hle hpos
    simp only [fetchLoop, specRequestsAux, if_neg (show ¬ r = 0 by omega)]
    rw [cursorParam_cursAt, honestApi_at]
    cases hserved : (all.drop pos).take (min cap r) with
    | nil =>
      have hlen : all.length ≤ pos := by
        rcases List.take_eq_nil_iff.mp hserved with h | h
        · omega
        · exact List.drop_eq_nil_iff.mp h
      have hp0 : pos = 0 := by rcases hpos with h | h <;> omega
      have hl0 : all.length = 0 := by omega
      subst hp0
      simp only [hserved, hl0, List.length_nil, Nat.add_zero, Nat.zero_sub,
        Nat.min_zero, List.take_zero, List.map_nil]
      simp
    | cons x xs =>
      have hxl : (x :: xs).length = min (min cap r) (all.length - pos) := by
        rw [← hserved, List.length_take, List.length_drop]
      have hposlt : pos < all.length := by
        rcases hpos with h | h
        · subst h
          have hgt : 0 < (x :: xs).length := by simp
          omega
        · exact h
      have hmem : ∀ y ∈ (x :: xs), _normalize_follower y = .ok (f y) := by
        intro y hy
        have hy2 : y ∈ (all.drop pos).take (min cap r) := by rw [hserved]; exact hy
        exact hnorm y (List.mem_of_mem_drop (List.mem_of_mem_take hy2))
      have hLpos : 0 < (x :: xs).length := by simp
      simp only [consumePage_ok (x :: xs) r hr hmem]
      rw [List.take_of_length_le (show (x :: xs).length ≤ r by omega)]
      rw [show min r (x :: xs).length = (x :: xs).length from by omega]
      by_cases hend : pos + (x :: xs).length < all.length
      · rw [if_pos hend]
        rw [truthy_cursTok (by omega)]
        rw [if_neg (by simp)]
        rw [← cursAt_pos (show 0 < pos + (x :: xs).length by omega)]
        by_cases hr2 : r - (x :: xs).length = 0
        · rw [if_pos hr2]
          rw [if_neg (show ¬ min (min cap r) (all.length - pos) = 0 by omega),
            if_neg (show ¬ all.length ≤ pos + min (min cap r) (all.length - pos) by
              omega),
            if_pos (show r - min (min cap r) (all.length - pos) = 0 by omega)]
          rw [show min r (all.length - pos) = min cap r from by omega, hserved]
        · rw [if_neg hr2]
          rw [ih (r - (x :: xs).length) (pos + (x :: xs).length) (by omega) (by omega)
            (Or.inr hend)]
          rw [if_neg (show ¬ min (min cap r) (all.length - pos) = 0 by omega),
            if_neg (show ¬ all.length ≤ pos + min (min cap r) (all.length - pos) by
              omega),
            if_neg (show ¬ r - min (min cap r) (all.length - pos) = 0 by omega)]
          simp only [Except.map, Prod.mk.injEq]
          constructor
          · rw [← List.map_append]
            congr 1
            rw [show pos + (x :: xs).length = pos + min cap r from by omega,
              show r - (x :: xs).length = r - min cap r from by omega]
            rw [show min (r - min cap r) (all.length - (pos + min cap r)) =
                min (r - min cap r) (all.length - pos - min cap r) from by omega]
            rw [show min r (all.length - pos) =
                min cap r + min (r - min cap r) (all.length - pos - min cap r) from by
              omega]
            rw [List.take_add, hserved, List.drop_drop]
          · rw [show r - (x :: xs).length =
                r - min (min cap r) (all.length - pos) from by omega,
              show pos + (x :: xs).length =
                pos + min (min cap r) (all.length - pos) from by omega]
      · rw [if_neg hend]
        rw [show pyTruthyStr none = false from rfl, if_pos rfl]
        rw [if_neg (show ¬ min (min cap r) (all.length - pos) = 0 by omega),
          if_pos (show all.length ≤ pos + min (min cap r) (all.length - pos) by omega)]
        rw [show min r (all.length - pos) = all.length - pos from by omega]
        rw [show (all.drop pos).take (all.length - pos) = all.drop pos from by
          apply List.take_of_length_le
          rw [List.length_drop]]
        rw [show (x :: xs) = all.drop pos from by
          rw [← hserved]
          apply List.take_of_length_le
          rw [List.length_drop]
          omega]

theorem specRequestsAux_head {cap total : Nat} (fuel r pos : Nat)
    (hf : 0 < fuel) (hr : r ≠ 0) :
    (specRequestsAux cap total fuel r pos).head? =
      some ⟨min cap r, cursAt pos⟩ := by
  cases fuel with
  | zero => omega
  | succ f =>
    simp only [specRequestsAux, if_neg hr]
    by_cases h1 : min (min cap r) (total - pos) = 0
    · rw [if_pos h1]
      rfl
    · rw [if_neg h1]
      by_cases h2 : total ≤ pos + min (min cap r) (total - pos)
      · rw [if_pos h2]
        rfl
      · rw [if_neg h2]
        by_cases h3 : r - min (min cap r) (total - pos) = 0
        · rw [if_pos h3]
          rfl
        · rw [if_neg h3]
          rfl

/-- Every request after the first in the expected sequence carries
exactly the continuation cursor of the server's response to the previous
request. -/
theorem specRequestsAux_chain (all : List Raw) (actor : String) (cap : Nat) :
    ∀ fuel r pos,
      List.Chain' (follows (honestApi all) actor)
        (specRequestsAux cap all.length fuel r pos) := by
  intro fuel
  induction fuel with
  | zero =>
    intro r pos
    exact List.chain'_nil
  | succ fuel ih =>
    intro r pos
    simp only [specRequestsAux]
    by_cases hr : r = 0
    · rw [if_pos hr]
      exact List.chain'_nil
    · rw [if_neg hr]
      by_cases hsv : min (min cap r) (all.length - pos) = 0
      · rw [if_pos hsv]
        exact List.chain'_singleton _
      · rw [if_neg hsv]
        by_cases hend : all.length ≤ pos + min (min cap r) (all.length - pos)
        · rw [if_pos hend]
          exact List.chain'_singleton _
        · rw [if_neg hend]
          by_cases hr2 : r - min (min cap r) (all.length - pos) = 0
          · rw [if_pos hr2]
            exact List.chain'_singleton _
          · rw [if_neg hr2]
            rw [List.chain'_cons']
            refine ⟨?_, ih _ _⟩
            intro y hy
            cases fuel with
            | zero => simp [specRequestsAux] at hy
            | succ fuel2 =>
              rw [specRequestsAux_head (fuel2 + 1) _ _ (by omega) hr2] at hy
              simp only [Option.mem_def, Option.some.injEq] at hy
              subst hy
              refine ⟨_, honestApi_at all actor (min cap r) pos, ?_⟩
              have hL : ((all.drop pos).take (min cap r)).length =
                  min (min cap r) (all.length - pos) := by
                rw [List.length_take, List.length_drop]
              simp only [hL]
              rw [if_pos (by omega), cursAt_pos (by omega)]

/-! ## Round-trip lemmas: numbers, strings, whitespace -/

theorem pNum_stop {rest : List Char} (acc : Nat)
    (hrest : ∀ c, rest.head? = some c → isDig c = false) :
    pNum rest acc = (acc, rest) := by
  cases rest with
  | nil => rfl
  | cons c cs =>
    simp only [pNum, hrest c rfl, Bool.false_eq_true, if_false]

theorem pNum_append :
    ∀ fuel n, n < 10 ^ fuel → ∀ acc rest,
      pNum (natDigitsAux fuel n ++ rest) acc =
        pNum rest (acc * 10 ^ (natDigitsAux fuel n).length + n) := by
  intro fuel
  induction fuel with
  | zero =>
    intro n hn acc rest
    have hn0 : n = 0 := by simpa using hn
    subst hn0
    simp [natDigitsAux]
  | succ f ih =>
    intro n hn acc rest
    by_cases h10 : n < 10
    · simp only [natDigitsAux, if_pos h10, List.cons_append, List.nil_append, pNum,
        isDig_dch h10, if_true, dval_dch h10, List.length_cons, List.length_nil,
        pow_one, Nat.zero_add]
    · have hd : n % 10 < 10 := by omega
      simp only [natDigitsAux, if_neg h10, List.append_assoc, List.cons_append,
        List.nil_append]
      rw [ih (n / 10) (by omega)]
      simp only [pNum, isDig_dch hd, if_true, dval_dch hd, List.length_append,
        List.length_cons, List.length_nil]
      have key : (acc * 10 ^ (natDigitsAux f (n / 10)).length + n / 10) * 10 + n % 10 =
          acc * 10 ^ ((natDigitsAux f (n / 10)).length + (0 + 1)) + n := by
        have hdm : n / 10 * 10 + n % 10 = n := by omega
        calc (acc * 10 ^ (natDigitsAux f (n / 10)).length + n / 10) * 10 + n % 10 =
              acc * (10 ^ (natDigitsAux f (n / 10)).length * 10) +
                (n / 10 * 10 + n % 10) := by ring
          _ = acc * 10 ^ ((natDigitsAux f (n / 10)).length + (0 + 1)) + n := by
              rw [hdm, Nat.zero_add, pow_succ]
      rw [key]

theorem lt_pow_self_ten (n : Nat) : n < 10 ^ (n + 1) := by
  induction n with
  | zero => norm_num
  | succ m ih =>
    have : 10 ^ (m + 1) ≥ m + 1 := by omega
    calc m + 1 < 10 ^ (m + 1) + 10 ^ (m + 1) := by omega
      _ ≤ 10 ^ (m + 1 + 1) := by rw [pow_succ]; omega

theorem pNum_natDigits {n : Nat} {rest : List Char}
    (hrest : ∀ c, rest.head? = some c → isDig c = false) :
    pNum (natDigits n ++ rest) 0 = (n, rest) := by
  rw [natDigits, pNum_append (n + 1) n (lt_pow_self_ten n) 0 rest,
    pNum_stop _ hrest]
  simp

theorem natDigitsAux_head :
    ∀ fuel n, n < 10 ^ fuel → 0 < fuel →
      ∃ d ds, d < 10 ∧ natDigitsAux fuel n = dch d :: ds := by
  intro fuel
  induction fuel with
  | zero => intro n _ h; omega
  | succ f ih =>
    intro n hn _
    by_cases h10 : n < 10
    · exact ⟨n, [], h10, by simp [natDigitsAux, if_pos h10]⟩
    · have hf : 0 < f := by
        by_contra hc
        have : f = 0 := by omega
        subst this
        simp at hn
        omega
      obtain ⟨d, ds, hd, heq⟩ := ih (n / 10) (by omega) hf
      exact ⟨d, ds ++ [dch (n % 10)], hd, by
        simp [natDigitsAux, if_neg h10, heq]⟩

theorem natDigits_head (n : Nat) :
    ∃ d ds, d < 10 ∧ natDigits n = dch d :: ds :=
  natDigitsAux_head (n + 1) n (lt_pow_self_ten n) (by omega)

theorem isWs_dch {d : Nat} (h : d < 10) : isWs (dch d) = false := by
  interval_cases d <;> rfl

theorem dch_ne_rbracket {d : Nat} (h : d < 10) : dch d ≠ ']' := by
  interval_cases d <;> decide

theorem dch_dispatch {d : Nat} (h : d < 10) :
    dch d ≠ '"' ∧ dch d ≠ 't' ∧ dch d ≠ 'f' ∧ dch d ≠ 'n' ∧ dch d ≠ '-' := by
  interval_cases d <;> exact ⟨by decide, by decide, by decide, by decide, by decide⟩

theorem hexVal_hexDig {d : Nat} (h : d < 16) : hexVal (hexDig d) = d := by
  interval_cases d <;> rfl

theorem isHex_hexDig {d : Nat} (h : d < 16) : isHex (hexDig d) = true := by
  interval_cases d <;> rfl

theorem pStr_quote (rest : List Char) : pStr ('"' :: rest) = some ([], rest) := by
  rw [pStr.eq_def]
  simp

theorem pStr_plain {c : Char} (X : List Char) (h1 : ¬ c = '"') (h2 : ¬ c = '\\') :
    pStr (c :: X) = (pStr X).map fun p => (c :: p.1, p.2) := by
  rw [pStr.eq_def]
  simp only []
  rw [if_neg h1, if_neg h2]

theorem pStr_u {h3 h4 : Char} (X : List Char)
    (hx3 : isHex h3 = true) (hx4 : isHex h4 = true) :
    pStr ('\\' :: 'u' :: '0' :: '0' :: h3 :: h4 :: X) =
      (pStr X).map fun p =>
        (Char.ofNat (((hexVal '0' * 16 + hexVal '0') * 16 + hexVal h3) * 16 +
          hexVal h4) :: p.1, p.2) := by
  rw [pStr.eq_2]
  rw [if_neg (show ¬ ('\\' : Char) = '"' by decide), if_pos rfl,
    if_pos (by rw [hx3, hx4]; decide)]

theorem pStr_escList : ∀ (cs : List Char) (rest : List Char),
    pStr (escList cs ++ '"' :: rest) = some (cs, rest) := by
  intro cs
  induction cs with
  | nil =>
    intro rest
    simp only [escList, List.map_nil, List.flatten_nil, List.nil_append]
    exact pStr_quote rest
  | cons c cs ih =>
    intro rest
    have hesc : escList (c :: cs) = escChar c ++ escList cs := by
      simp [escList]
    rw [hesc, List.append_assoc]
    unfold escChar
    by_cases h1 : c = '"'
    · subst h1
      simp [pStr, unescMap, ih rest]
    · rw [if_neg h1]
      by_cases h2 : c = '\\'
      · subst h2
        simp [pStr, unescMap, ih rest]
      · rw [if_neg h2]
        by_cases h3 : c = '\n'
        · subst h3
          simp [pStr, unescMap, ih rest]
        · rw [if_neg h3]
          by_cases h4 : c = '\t'
          · subst h4
            simp [pStr, unescMap, ih rest]
          · rw [if_neg h4]
            by_cases h5 : c = '\r'
            · subst h5
              simp [pStr, unescMap, ih rest]
            · rw [if_neg h5]
              by_cases h6 : c = '\x08'
              · subst h6
                simp [pStr, unescMap, ih rest]
              · rw [if_neg h6]
                by_cases h7 : c = '\x0c'
                · subst h7
                  simp [pStr, unescMap, ih rest]
                · rw [if_neg h7]
                  by_cases h8 : c.toNat < 32
                  · rw [if_pos h8]
                    have hhi : c.toNat / 16 < 16 := by omega
                    have hlo : c.toNat % 16 < 16 := by omega
                    simp only [List.cons_append, List.nil_append]
                    rw [pStr_u _ (isHex_hexDig hhi) (isHex_hexDig hlo), ih rest]
                    simp only [Option.map_some, hexVal_hexDig hhi, hexVal_hexDig hlo,
                      (show hexVal '0' = 0 from rfl)]
                    have hval : ((0 * 16 + 0) * 16 + c.toNat / 16) * 16 + c.toNat % 16 =
                        c.toNat := by omega
                    rw [hval, Char.ofNat_toNat]
                    rfl
                  · rw [if_neg h8]
                    simp only [List.cons_append, List.nil_append]
                    rw [pStr_plain _ h1 h2, ih rest]
                    rfl

theorem skipWs_ws_append {pre : List Char} (hpre : ∀ c ∈ pre, isWs c = true)
    (X : List Char) : skipWs (pre ++ X) = skipWs X := by
  induction pre with
  | nil => simp
  | cons c cs ih =>
    simp only [List.cons_append, skipWs, List.dropWhile_cons,
      hpre c (List.mem_cons_self c cs), if_true]
    exact ih (fun y hy => hpre y (List.mem_cons_of_mem c hy))

theorem skipWs_not_ws {c : Char} {X : List Char} (h : isWs c = false) :
    skipWs (c :: X) = c :: X := by
  simp [skipWs, List.dropWhile_cons, h]

theorem ws_pad {i : Nat} : ∀ c ∈ pad i, isWs c = true := by
  intro c hc
  rw [pad, List.mem_replicate] at hc
  rw [hc.2]
  rfl

theorem pVal_ws_prefix (fuel : Nat) {pre : List Char}
    (hpre : ∀ c ∈ pre, isWs c = true) (X : List Char) :
    pVal fuel (pre ++ X) = pVal fuel X := by
  cases fuel with
  | zero => rfl
  | succ f => simp only [pVal, skipWs_ws_append hpre]

theorem dumpVal_head (ind : Nat) (v : JVal) :
    ∃ c cs, dumpVal ind v = c :: cs ∧ isWs c = false ∧ c ≠ ']' := by
  cases v with
  | null => exact ⟨'n', _, rfl, rfl, by decide⟩
  | bool b => cases b with
    | true => exact ⟨'t', _, rfl, rfl, by decide⟩
    | false => exact ⟨'f', _, rfl, rfl, by decide⟩
  | num i =>
    rcases lt_or_le i 0 with hneg | hpos
    · exact ⟨'-', natDigits i.natAbs, by simp [dumpVal, intDump, if_pos hneg],
        rfl, by decide⟩
    · obtain ⟨d, ds, hd, heq⟩ := natDigits_head i.toNat
      exact ⟨dch d, ds, by simp [dumpVal, intDump, if_neg (by omega : ¬ i < 0), heq],
        isWs_dch hd, dch_ne_rbracket hd⟩
  | str s => exact ⟨'"', _, rfl, rfl, by decide⟩
  | arr xs => cases xs with
    | nil => exact ⟨'[', _, rfl, rfl, by decide⟩
    | cons x xs => exact ⟨'[', _, rfl, rfl, by decide⟩
  | obj kvs => cases kvs with
    | nil => exact ⟨lbrace, _, rfl, rfl, by decide⟩
    | cons kv kvs =>
      obtain ⟨k, v⟩ := kv
      exact ⟨lbrace, _, rfl, rfl, by decide⟩

/-! ## Round-trip: the parser re-reads the renderer output -/

theorem jsize_pos (v : JVal) : 1 ≤ jsize v := by
  cases v <;> simp [jsize]

theorem jsizeL_pos (xs : List JVal) : 1 ≤ jsizeL xs := by
  cases xs with
  | nil => simp [jsizeL]
  | cons x xs => simp [jsizeL]; omega

theorem jsizeF_pos (kvs : List (String × JVal)) : 1 ≤ jsizeF kvs := by
  cases kvs with
  | nil => simp [jsizeF]
  | cons kv kvs => obtain ⟨k, v⟩ := kv; simp [jsizeF]; omega

theorem elems_safe (ind : Nat) (xs : List JVal) (Z : List Char) :
    ∀ c, (dumpElems ind xs ++ '\n' :: Z).head? = some c → isDig c = false := by
  intro c hc
  cases xs with
  | nil => simp [dumpElems] at hc; subst hc; rfl
  | cons x xs => simp [dumpElems] at hc; subst hc; rfl

theorem fields_safe (ind : Nat) (kvs : List (String × JVal)) (Z : List Char) :
    ∀ c, (dumpFields ind kvs ++ '\n' :: Z).head? = some c → isDig c = false := by
  intro c hc
  cases kvs with
  | nil => simp [dumpFields] at hc; subst hc; rfl
  | cons kv kvs =>
    obtain ⟨k, v⟩ := kv
    simp [dumpFields] at hc; subst hc; rfl

theorem ws_nl_pad {cl : Nat} : ∀ c ∈ '\n' :: pad cl, isWs c = true := by
  intro c hc
  rcases List.mem_cons.mp hc with h | h
  · rw [h]; rfl
  · exact ws_pad c h

theorem skipWs_indent (cl : Nat) (X : List Char) :
    skipWs ('\n' :: (pad cl ++ X)) = skipWs X := by
  have h : '\n' :: (pad cl ++ X) = ('\n' :: pad cl) ++ X := by simp
  rw [h, skipWs_ws_append ws_nl_pad]

theorem pVal_null (f ind : Nat) (rest : List Char) :
    pVal (f + 1) (dumpVal ind .null ++ rest) = some (.null, rest) := by
  show pVal (f + 1) ('n' :: 'u' :: 'l' :: 'l' :: rest) = some (.null, rest)
  simp [pVal, skipWs_not_ws (show isWs 'n' = false from rfl)]

theorem pVal_true (f ind : Nat) (rest : List Char) :
    pVal (f + 1) (dumpVal ind (.bool true) ++ rest) = some (.bool true, rest) := by
  show pVal (f + 1) ('t' :: 'r' :: 'u' :: 'e' :: rest) = some (.bool true, rest)
  simp [pVal, skipWs_not_ws (show isWs 't' = false from rfl)]

theorem pVal_false (f ind : Nat) (rest : List Char) :
    pVal (f + 1) (dumpVal ind (.bool false) ++ rest) = some (.bool false, rest) := by
  show pVal (f + 1) ('f' :: 'a' :: 'l' :: 's' :: 'e' :: rest) = some (.bool false, rest)
  simp [pVal, skipWs_not_ws (show isWs 'f' = false from rfl)]

theorem pVal_str (f ind : Nat) (s : String) (rest : List Char) :
    pVal (f + 1) (dumpVal ind (.str s) ++ rest) = some (.str s, rest) := by
  show pVal (f + 1) (('"' :: escList s.data ++ ['"']) ++ rest) = some (.str s, rest)
  simp only [List.cons_append, List.append_assoc, List.nil_append]
  simp [pVal, skipWs_not_ws (show isWs '"' = false from rfl), pStr_escList]

theorem pVal_arrnil (f ind : Nat) (rest : List Char) :
    pVal (f + 1) (dumpVal ind (.arr []) ++ rest) = some (.arr [], rest) := by
  show pVal (f + 1) ('[' :: ']' :: rest) = some (.arr [], rest)
  simp [pVal, skipWs_not_ws (show isWs '[' = false from rfl),
    skipWs_not_ws (show isWs ']' = false from rfl),
    (show isDig '[' = false from rfl)]

theorem pVal_objnil (f ind : Nat) (rest : List Char) :
    pVal (f + 1) (dumpVal ind (.obj []) ++ rest) = some (.obj [], rest) := by
  show pVal (f + 1) (lbrace :: rbrace :: rest) = some (.obj [], rest)
  simp [pVal, skipWs_not_ws (show isWs lbrace = false from rfl),
    skipWs_not_ws (show isWs rbrace = false from rfl),
    (show isDig lbrace = false from rfl),
    (show lbrace ≠ '"' from by decide), (show lbrace ≠ 't' from by decide),
    (show lbrace ≠ 'f' from by decide), (show lbrace ≠ 'n' from by decide),
    (show lbrace ≠ '-' from by decide), (show lbrace ≠ '[' from by decide)]

theorem pVal_num (f ind : Nat) (i : Int) {rest : List Char}
    (hrest : ∀ c, rest.head? = some c → isDig c = false) :
    pVal (f + 1) (dumpVal ind (.num i) ++ rest) = some (.num i, rest) := by
  show pVal (f + 1) (intDump i ++ rest) = some (.num i, rest)
  rcases lt_or_le i 0 with hneg | hpos
  · rw [intDump, if_pos hneg]
    obtain ⟨d, ds, hd, heq⟩ := natDigits_head i.natAbs
    have hnum : pNum (dch d :: (ds ++ rest)) 0 = (i.natAbs, rest) := by
      have h2 : dch d :: (ds ++ rest) = natDigits i.natAbs ++ rest := by
        rw [heq]; simp
      rw [h2, pNum_natDigits hrest]
    rw [heq]
    simp only [List.cons_append]
    obtain ⟨n1, n2, n3, n4, n5⟩ := dch_dispatch hd
    simp [pVal, skipWs_not_ws (show isWs '-' = false from rfl), isDig_dch hd, hnum]
    rw [abs_of_neg hneg, neg_neg]
  · rw [intDump, if_neg (by omega : ¬ i < 0)]
    obtain ⟨d, ds, hd, heq⟩ := natDigits_head i.toNat
    have hnum : pNum (dch d :: (ds ++ rest)) 0 = (i.toNat, rest) := by
      have h2 : dch d :: (ds ++ rest) = natDigits i.toNat ++ rest := by
        rw [heq]; simp
      rw [h2, pNum_natDigits hrest]
    rw [heq]
    simp only [List.cons_append]
    obtain ⟨n1, n2, n3, n4, n5⟩ := dch_dispatch hd
    simp [pVal, skipWs_not_ws (isWs_dch hd), isDig_dch hd, hnum, n1, n2, n3, n4, n5]
    omega

theorem ws_space : ∀ c ∈ [' '], isWs c = true := by
  intro c hc
  simp at hc
  rw [hc]
  rfl

theorem parse_dump : ∀ fuel : Nat,
    (∀ (v : JVal) (ind : Nat) (rest : List Char), jsize v ≤ fuel →
      (∀ c, rest.head? = some c → isDig c = false) →
      pVal fuel (dumpVal ind v ++ rest) = some (v, rest)) ∧
    (∀ (ind cl : Nat) (x : JVal) (xs : List JVal) (rest : List Char),
      1 + jsize x + jsizeL xs ≤ fuel →
      pElems fuel ('\n' :: (pad ind ++ (dumpVal ind x ++ (dumpElems ind xs ++
          '\n' :: (pad cl ++ ']' :: rest))))) = some (x :: xs, rest)) ∧
    (∀ (ind cl : Nat) (k : String) (v : JVal) (kvs : List (String × JVal))
        (rest : List Char),
      1 + jsize v + jsizeF kvs ≤ fuel →
      pFields fuel ('\n' :: (pad ind ++ '"' :: (escList k.data ++ '"' :: ':' :: ' ' ::
          (dumpVal ind v ++ (dumpFields ind kvs ++
          '\n' :: (pad cl ++ rbrace :: rest)))))) = some ((k, v) :: kvs, rest)) := by
  intro fuel
  induction fuel with
  | zero =>
    refine ⟨?_, ?_, ?_⟩
    · intro v ind rest h _
      have := jsize_pos v
      omega
    · intro ind cl x xs rest h
      omega
    · intro ind cl k v kvs rest h
      omega
  | succ f ih =>
    obtain ⟨ihV, ihE, ihF⟩ := ih
    refine ⟨?_, ?_, ?_⟩
    · intro v ind rest hfuel hrest
      cases v with
      | null => exact pVal_null f ind rest
      | bool b =>
        cases b with
        | true => exact pVal_true f ind rest
        | false => exact pVal_false f ind rest
      | num i => exact pVal_num f ind i hrest
      | str s => exact pVal_str f ind s rest
      | arr xs =>
        cases xs with
        | nil => exact pVal_arrnil f ind rest
        | cons x xs =>
          have hshape : dumpVal ind (.arr (x :: xs)) ++ rest =
              '[' :: ('\n' :: (pad (ind + 2) ++ (dumpVal (ind + 2) x ++
                (dumpElems (ind + 2) xs ++ '\n' :: (pad ind ++ ']' :: rest))))) := by
            simp [dumpVal]
          rw [hshape, pVal.eq_2, skipWs_not_ws (show isWs '[' = false from rfl)]
          obtain ⟨c0, cs0, hc0, hws0, hnb0⟩ := dumpVal_head (ind + 2) x
          have hskip : skipWs ('\n' :: (pad (ind + 2) ++ (dumpVal (ind + 2) x ++
              (dumpElems (ind + 2) xs ++ '\n' :: (pad ind ++ ']' :: rest))))) =
              c0 :: (cs0 ++ (dumpElems (ind + 2) xs ++
                '\n' :: (pad ind ++ ']' :: rest))) := by
            rw [skipWs_indent, hc0]
            simp [skipWs_not_ws hws0]
          have hbound : 1 + jsize x + jsizeL xs ≤ f := by
            simp [jsize, jsizeL] at hfuel
            omega
          have hE := ihE (ind + 2) ind x xs rest hbound
          simp [hskip, hnb0, hE, (show isDig '[' = false from rfl)]
      | obj kvs =>
        cases kvs with
        | nil => exact pVal_objnil f ind rest
        | cons kv kvs =>
          obtain ⟨k, v⟩ := kv
          have hshape : dumpVal ind (.obj ((k, v) :: kvs)) ++ rest =
              lbrace :: ('\n' :: (pad (ind + 2) ++ '"' :: (escList k.data ++
                '"' :: ':' :: ' ' :: (dumpVal (ind + 2) v ++
                (dumpFields (ind + 2) kvs ++
                  '\n' :: (pad ind ++ rbrace :: rest)))))) := by
            simp [dumpVal]
          rw [hshape, pVal.eq_2, skipWs_not_ws (show isWs lbrace = false from rfl)]
          have hskip : skipWs ('\n' :: (pad (ind + 2) ++ '"' :: (escList k.data ++
              '"' :: ':' :: ' ' :: (dumpVal (ind + 2) v ++
              (dumpFields (ind + 2) kvs ++ '\n' :: (pad ind ++ rbrace :: rest)))))) =
              '"' :: (escList k.data ++ '"' :: ':' :: ' ' :: (dumpVal (ind + 2) v ++
              (dumpFields (ind + 2) kvs ++ '\n' :: (pad ind ++ rbrace :: rest)))) := by
            rw [skipWs_indent, skipWs_not_ws (show isWs '"' = false from rfl)]
          have hbound : 1 + jsize v + jsizeF kvs ≤ f := by
            simp [jsize, jsizeF] at hfuel
            omega
          have hF := ihF (ind + 2) ind k v kvs rest hbound
          simp [hskip, hF, (show isDig lbrace = false from rfl),
            (show lbrace ≠ '"' from by decide), (show lbrace ≠ 't' from by decide),
            (show lbrace ≠ 'f' from by decide), (show lbrace ≠ 'n' from by decide),
            (show lbrace ≠ '-' from by decide), (show lbrace ≠ '[' from by decide),
            (show ('"' : Char) ≠ rbrace from by decide)]
    · intro ind cl x xs rest hfuel
      rw [pElems.eq_2]
      have hV : pVal f ('\n' :: (pad ind ++ (dumpVal ind x ++ (dumpElems ind xs ++
          '\n' :: (pad cl ++ ']' :: rest))))) =
          some (x, dumpElems ind xs ++ '\n' :: (pad cl ++ ']' :: rest)) := by
        have hpre : '\n' :: (pad ind ++ (dumpVal ind x ++ (dumpElems ind xs ++
            '\n' :: (pad cl ++ ']' :: rest)))) =
            ('\n' :: pad ind) ++ (dumpVal ind x ++ (dumpElems ind xs ++
            '\n' :: (pad cl ++ ']' :: rest))) := by simp
        rw [hpre, pVal_ws_prefix f ws_nl_pad]
        exact ihV x ind _ (by have := jsizeL_pos xs; omega) (elems_safe ind xs _)
      rw [hV]
      cases xs with
      | nil =>
        simp [dumpElems, skipWs_indent, skipWs_not_ws (show isWs ']' = false from rfl)]
      | cons y ys =>
        have hE : pElems f ('\n' :: (pad ind ++ (dumpVal ind y ++ (dumpElems ind ys ++
            '\n' :: (pad cl ++ ']' :: rest))))) = some (y :: ys, rest) := by
          refine ihE ind cl y ys rest ?_
          have := jsize_pos x
          simp [jsizeL] at hfuel
          omega
        simp [dumpElems, skipWs_not_ws (show isWs ',' = false from rfl), hE]
    · intro ind cl k v kvs rest hfuel
      rw [pFields.eq_2]
      have hskip : skipWs ('\n' :: (pad ind ++ '"' :: (escList k.data ++
          '"' :: ':' :: ' ' :: (dumpVal ind v ++ (dumpFields ind kvs ++
          '\n' :: (pad cl ++ rbrace :: rest)))))) =
          '"' :: (escList k.data ++ '"' :: ':' :: ' ' :: (dumpVal ind v ++
          (dumpFields ind kvs ++ '\n' :: (pad cl ++ rbrace :: rest)))) := by
        rw [skipWs_indent, skipWs_not_ws (show isWs '"' = false from rfl)]
      rw [hskip]
      have hV : pVal f (' ' :: (dumpVal ind v ++ (dumpFields ind kvs ++
          '\n' :: (pad cl ++ rbrace :: rest)))) =
          some (v, dumpFields ind kvs ++ '\n' :: (pad cl ++ rbrace :: rest)) := by
        have hpre : ' ' :: (dumpVal ind v ++ (dumpFields ind kvs ++
            '\n' :: (pad cl ++ rbrace :: rest))) =
            [' '] ++ (dumpVal ind v ++ (dumpFields ind kvs ++
            '\n' :: (pad cl ++ rbrace :: rest))) := by simp
        rw [hpre, pVal_ws_prefix f ws_space]
        exact ihV v ind _ (by have := jsizeF_pos kvs; omega) (fields_safe ind kvs _)
      cases kvs with
      | nil =>
        simp only [dumpFields, List.nil_append] at hV
        simp [pStr_escList, skipWs_not_ws (show isWs ':' = false from rfl), hV,
          dumpFields, skipWs_indent,
          skipWs_not_ws (show isWs rbrace = false from rfl),
          (show rbrace ≠ ',' from by decide)]
      | cons kv2 kvs2 =>
        obtain ⟨k2, v2⟩ := kv2
        have hF : pFields f ('\n' :: (pad ind ++ '"' :: (escList k2.data ++
            '"' :: ':' :: ' ' :: (dumpVal ind v2 ++ (dumpFields ind kvs2 ++
            '\n' :: (pad cl ++ rbrace :: rest)))))) = some ((k2, v2) :: kvs2, rest) := by
          refine ihF ind cl k2 v2 kvs2 rest ?_
          have := jsize_pos v
          simp [jsizeF] at hfuel
          omega
        simp only [dumpFields, List.cons_append, List.append_assoc,
          List.nil_append] at hV
        simp [pStr_escList, skipWs_not_ws (show isWs ':' = false from rfl), hV,
          dumpFields, skipWs_not_ws (show isWs ',' = false from rfl), hF]

theorem dumpLen : ∀ n : Nat,
    (∀ (ind : Nat) (v : JVal), jsize v ≤ n →
      jsize v ≤ (dumpVal ind v).length + 1) ∧
    (∀ (ind : Nat) (xs : List JVal), jsizeL xs ≤ n →
      jsizeL xs ≤ (dumpElems ind xs).length + 1) ∧
    (∀ (ind : Nat) (kvs : List (String × JVal)), jsizeF kvs ≤ n →
      jsizeF kvs ≤ (dumpFields ind kvs).length + 1) := by
  intro n
  induction n with
  | zero =>
    refine ⟨?_, ?_, ?_⟩
    · intro ind v h
      have := jsize_pos v
      omega
    · intro ind xs h
      have := jsizeL_pos xs
      omega
    · intro ind kvs h
      have := jsizeF_pos kvs
      omega
  | succ m ih =>
    obtain ⟨ihV, ihE, ihF⟩ := ih
    refine ⟨?_, ?_, ?_⟩
    · intro ind v hv
      cases v with
      | null => simp [jsize, dumpVal]
      | bool b => cases b <;> simp [jsize, dumpVal]
      | num i => simp [jsize]
      | str s => simp [jsize]
      | arr xs =>
        cases xs with
        | nil => simp [jsize, jsizeL, dumpVal]
        | cons x xs =>
          simp only [jsize, jsizeL] at hv ⊢
          have h1 : jsize x ≤ (dumpVal (ind + 2) x).length + 1 :=
            ihV (ind + 2) x (by have := jsizeL_pos xs; omega)
          have h2 : jsizeL xs ≤ (dumpElems (ind + 2) xs).length + 1 :=
            ihE (ind + 2) xs (by have := jsize_pos x; omega)
          simp [dumpVal]
          omega
      | obj kvs =>
        cases kvs with
        | nil => simp [jsize, jsizeF, dumpVal]
        | cons kv kvs =>
          obtain ⟨k, v⟩ := kv
          simp only [jsize, jsizeF] at hv ⊢
          have h1 : jsize v ≤ (dumpVal (ind + 2) v).length + 1 :=
            ihV (ind + 2) v (by have := jsizeF_pos kvs; omega)
          have h2 : jsizeF kvs ≤ (dumpFields (ind + 2) kvs).length + 1 :=
            ihF (ind + 2) kvs (by have := jsize_pos v; omega)
          simp [dumpVal]
          omega
    · intro ind xs hxs
      cases xs with
      | nil => simp [jsizeL, dumpElems]
      | cons x xs =>
        simp only [jsizeL] at hxs ⊢
        have h1 : jsize x ≤ (dumpVal ind x).length + 1 :=
          ihV ind x (by have := jsizeL_pos xs; omega)
        have h2 : jsizeL xs ≤ (dumpElems ind xs).length + 1 :=
          ihE ind xs (by have := jsize_pos x; omega)
        simp [dumpElems]
        omega
    · intro ind kvs hkvs
      cases kvs with
      | nil => simp [jsizeF, dumpFields]
      | cons kv kvs =>
        obtain ⟨k, v⟩ := kv
        simp only [jsizeF] at hkvs ⊢
        have h1 : jsize v ≤ (dumpVal ind v).length + 1 :=
          ihV ind v (by have := jsizeF_pos kvs; omega)
        have h2 : jsizeF kvs ≤ (dumpFields ind kvs).length + 1 :=
          ihF ind kvs (by have := jsize_pos v; omega)
        simp [dumpFields]
        omega

theorem pVal_dumpVal {fuel : Nat} (v : JVal) (ind : Nat) {rest : List Char}
    (hfuel : jsize v ≤ fuel)
    (hrest : ∀ c, rest.head? = some c → isDig c = false) :
    pVal fuel (dumpVal ind v ++ rest) = some (v, rest) :=
  (parse_dump fuel).1 v ind rest hfuel hrest

theorem jsonLoads_dumps (followers : List Raw) :
    jsonLoads (dumps followers) = some (JVal.arr (followers.map JVal.obj)) := by
  have hlen : jsize (JVal.arr (followers.map JVal.obj)) ≤
      (dumpVal 0 (JVal.arr (followers.map JVal.obj))).length + 1 :=
    (dumpLen (jsize (JVal.arr (followers.map JVal.obj)))).1 0 _ le_rfl
  have h := @pVal_dumpVal ((dumpVal 0 (JVal.arr (followers.map JVal.obj))).length + 1)
    (JVal.arr (followers.map JVal.obj)) 0 [] hlen (by intro c hc; simp at hc)
  rw [List.append_nil] at h
  show (match pVal ((dumpVal 0 (JVal.arr (followers.map JVal.obj))).length + 1)
      (dumpVal 0 (JVal.arr (followers.map JVal.obj))) with
    | some (v, rest) => if skipWs rest = [] then some v else none
    | none => none) = some (JVal.arr (followers.map JVal.obj))
  rw [h]
  rfl

/-! ## Lookup lemmas for normalized records -/

theorem lookup_append_left {k : String} {f g : Raw}
    (h : (List.lookup k f).isSome) :
    List.lookup k (f ++ g) = List.lookup k f := by
  induction f with
  | nil => simp at h
  | cons p rest ih =>
    obtain ⟨k1, v1⟩ := p
    cases hk : (k == k1) with
    | true => simp [List.lookup_cons, hk]
    | false =>
      simp only [List.lookup_cons, hk, cond_false] at h ⊢
      simp only [List.cons_append, List.lookup_cons, hk, cond_false]
      exact ih h

theorem lookup_addPassthrough {raws : Raw} :
    ∀ {f : Raw} {k : String}, (List.lookup k f).isSome →
    List.lookup k (addPassthrough f raws) = List.lookup k f := by
  induction raws with
  | nil => intro f k _; rfl
  | cons p rest ih =>
    intro f k h
    obtain ⟨k1, v1⟩ := p
    simp only [addPassthrough]
    by_cases hs : (List.lookup k1 f).isSome
    · rw [if_pos hs]
      exact ih h
    · rw [if_neg hs]
      have hsk : (List.lookup k (f ++ [(k1, v1)])).isSome := by
        rw [lookup_append_left h]
        exact h
      rw [ih hsk, lookup_append_left h]

/-! ## Claims C3 and C4 -/

/-- C3 counterexample: on the empty raw object the key `labels` is absent
from the input, yet the normalizer stores the empty list there, not null
(and similarly `associated` gets the empty object), refuting "each
promoted field whose source key is absent from the raw input has the
value null". -/
theorem c3_counterexample :
    List.lookup "labels" ([] : Raw) = none ∧
    (_normalize_follower []).map (List.lookup "labels") =
      .ok (some (JVal.arr [])) ∧
    some (JVal.arr []) ≠ some JVal.null := by
  refine ⟨rfl, rfl, ?_⟩
  intro h
  injection h with h2
  cases h2

/-- C3 (amended): every record produced by the normalizer contains all
nine promoted field keys; `did`, `handle`, `displayName`, `avatar` and
`createdAt` are null when their source key is absent, `description` is
null when both `description` and `bio` are absent, `link_to_profile` is
null when both `did` and `handle` are absent, while an absent `labels`
defaults to the empty list and an absent `associated` to the empty object
(not null). -/
theorem c3_promoted_fields {raw rec : Raw}
    (h : _normalize_follower raw = .ok rec) :
    (∀ k ∈ promotedKeys, (List.lookup k rec).isSome) ∧
    (List.lookup "did" raw = none → List.lookup "did" rec = some .null) ∧
    (List.lookup "handle" raw = none → List.lookup "handle" rec = some .null) ∧
    (List.lookup "displayName" raw = none →
      List.lookup "displayName" rec = some .null) ∧
    (List.lookup "avatar" raw = none → List.lookup "avatar" rec = some .null) ∧
    (List.lookup "createdAt" raw = none →
      List.lookup "createdAt" rec = some .null) ∧
    (List.lookup "description" raw = none → List.lookup "bio" raw = none →
      List.lookup "description" rec = some .null) ∧
    (List.lookup "labels" raw = none →
      List.lookup "labels" rec = some (JVal.arr [])) ∧
    (List.lookup "associated" raw = none →
      List.lookup "associated" rec = some (JVal.obj [])) ∧
    (List.lookup "did" raw = none → List.lookup "handle" raw = none →
      List.lookup "link_to_profile" rec = some .null) := by
  unfold _normalize_follower at h
  cases hca : ensureAny (rawGet raw "createdAt") with
  | error e => rw [hca] at h; cases h
  | ok ca =>
    rw [hca] at h
    simp only [Except.ok.injEq] at h
    subst h
    refine ⟨?_, ?_, ?_, ?_, ?_, ?_, ?_, ?_, ?_, ?_⟩
    · intro k hk
      fin_cases hk <;>
        · rw [lookup_addPassthrough (by simp [List.lookup])]
          simp [List.lookup]
    · intro h1
      rw [lookup_addPassthrough (by simp [List.lookup])]
      simp [List.lookup, rawGet, h1]
    · intro h1
      rw [lookup_addPassthrough (by simp [List.lookup])]
      simp [List.lookup, rawGet, h1]
    · intro h1
      rw [lookup_addPassthrough (by simp [List.lookup])]
      simp [List.lookup, rawGet, h1]
    · intro h1
      rw [lookup_addPassthrough (by simp [List.lookup])]
      simp [List.lookup, rawGet, h1]
    · intro h1
      rw [lookup_addPassthrough (by simp [List.lookup])]
      rw [rawGet, h1] at hca
      have : ca = none := by
        rw [show ensureAny ((none : Option JVal).getD .null) = .ok none from rfl] at hca
        injection hca with h2
        exact h2.symm
      subst this
      simp [List.lookup, optToJVal]
    · intro h1 h2
      rw [lookup_addPassthrough (by simp [List.lookup])]
      simp [List.lookup, rawGet, h1, h2, pyOr, JVal.truthy]
    · intro h1
      rw [lookup_addPassthrough (by simp [List.lookup])]
      simp [List.lookup, rawGet, h1, pyOr, JVal.truthy]
    · intro h1
      rw [lookup_addPassthrough (by simp [List.lookup])]
      simp [List.lookup, rawGet, h1, pyOr, JVal.truthy]
    · intro h1 h2
      rw [lookup_addPassthrough (by simp [List.lookup])]
      simp [List.lookup, rawGet, h1, h2, jvalToOptStr, _build_profile_link,
        pyTruthyStr, optToJVal]

theorem c3_promoted_fields_witness :
    (List.lookup "did"
      (addPassthrough [("did", .null), ("handle", .null), ("displayName", .null),
        ("avatar", .null), ("createdAt", .null), ("description", .null),
        ("labels", .arr []), ("associated", .obj []), ("link_to_profile", .null)]
        []) ).isSome = true :=
  (@c3_promoted_fields [] _ rfl).1 "did" (by decide)

/-- C4 counterexample: with the raw input holding `handle = ""` and
`did = "did:plc:x"` both keys are present, but the derived link is the
identifier-based URL, not the handle-based URL the claim requires whenever
the handle is present. -/
theorem c4_counterexample :
    _build_profile_link (some "did:plc:x") (some "") =
      some "https://bsky.app/profile/did:plc:x" ∧
    some "https://bsky.app/profile/did:plc:x" ≠
      some ("https://bsky.app/profile/" ++ "") := by
  refine ⟨rfl, ?_⟩
  intro h
  injection h with h2
  exact absurd h2 (by decide)

/-- C4 (amended): the derived profile link prefers the handle whenever it
is present and non-empty (truthy); otherwise it uses the identifier when
that is present and non-empty; otherwise it is null.  An empty string is
treated like an absent value. -/
theorem c4_profile_link (did handle : Option String) :
    (∀ h, handle = some h → h ≠ "" →
      _build_profile_link did handle = some ("https://bsky.app/profile/" ++ h)) ∧
    (pyTruthyStr handle = false → ∀ d, did = some d → d ≠ "" →
      _build_profile_link did handle = some ("https://bsky.app/profile/" ++ d)) ∧
    (pyTruthyStr handle = false → pyTruthyStr did = false →
      _build_profile_link did handle = none) := by
  refine ⟨?_, ?_, ?_⟩
  · intro h hh hne
    subst hh
    unfold _build_profile_link pyTruthyStr
    rw [if_pos (by simp [hne])]
    rfl
  · intro hf d hd hne
    subst hd
    unfold _build_profile_link
    rw [if_neg (by simp [hf]), if_pos (by simp [pyTruthyStr, hne])]
    rfl
  · intro hf hdf
    unfold _build_profile_link
    rw [if_neg (by simp [hf]), if_neg (by simp [hdf])]

theorem c4_profile_link_witness :
    _build_profile_link (some "did:plc:x") (some "alice.example") =
      some ("https://bsky.app/profile/" ++ "alice.example") ∧
    _build_profile_link (some "did:plc:x") none =
      some ("https://bsky.app/profile/" ++ "did:plc:x") ∧
    _build_profile_link none none = none :=
  ⟨(c4_profile_link (some "did:plc:x") (some "alice.example")).1
      "alice.example" rfl (by decide),
   (c4_profile_link (some "did:plc:x") none).2.1 (by decide)
      "did:plc:x" rfl (by decide),
   (c4_profile_link none none).2.2 (by decide) (by decide)⟩

/-! ## Claims C1 and C2 -/

/-- C1 counterexample: the API holds one follower whose `createdAt` is the
number `7`; with limit `1` the fetch does not return one normalized record
— normalization raises `AttributeError` (`7 .strip()`), the exception
escapes `fetch_followers`, and no records are returned. -/
theorem c1_counterexample :
    1 ≤ ([[("createdAt", JVal.num 7)]] : List Raw).length ∧
    fetch_followers (honestApi [[("createdAt", JVal.num 7)]]) 100 "alice.example" 1 =
      (.error (.attributeError "strip"), [⟨1, none⟩]) :=
  ⟨by decide, rfl⟩

/-- C1 (amended): against a well-behaved server holding `all`, whenever
every held follower normalizes without error, `fetch_followers` with
positive limit `N` issues each request with size
`min(page_cap, remaining_needed)` and returns the first `min(N, available)`
followers normalized — exactly `N` when the server holds at least `N`,
everything available otherwise, with no error; the request trace is the
expected sequence, the first request carries no cursor, and every later
request carries exactly the previous response's continuation cursor. -/
theorem c1_pagination {all : List Raw} {f : Raw → Raw} (actor : String)
    (cap : Nat) (N : Int) (hcap : 0 < cap) (hN : 0 < N)
    (hnorm : ∀ raw ∈ all, _normalize_follower raw = .ok (f raw)) :
    fetch_followers (honestApi all) cap actor N =
      (.ok ((all.take (min N.toNat all.length)).map f),
        specRequests cap all.length N.toNat) ∧
    List.Chain' (follows (honestApi all) actor)
      (specRequests cap all.length N.toNat) ∧
    (specRequests cap all.length N.toNat).head? =
      some ⟨min cap N.toNat, none⟩ := by
  refine ⟨?_, specRequestsAux_chain all actor cap N.toNat N.toNat 0, ?_⟩
  · unfold fetch_followers
    rw [if_neg (by omega)]
    have hmain := @fetchLoop_honest all f actor cap hcap hnorm N.toNat N.toNat 0
      (by omega) le_rfl (Or.inl rfl)
    rw [show (none : Option String) = cursAt 0 from rfl, hmain]
    rw [List.drop_zero, Nat.sub_zero]
    rfl
  · rw [specRequests, specRequestsAux_head N.toNat N.toNat 0 (by omega) (by omega)]
    rfl

theorem c1_pagination_witness :
    fetch_followers (honestApi c1SampleAll) 3 "alice.example" 5 =
      (.ok ((c1SampleAll.take (min (5 : Int).toNat c1SampleAll.length)).map
          (fun _ => c1SampleRec)),
        specRequests 3 c1SampleAll.length (5 : Int).toNat) :=
  (@c1_pagination c1SampleAll (fun _ => c1SampleRec) "alice.example" 3 5
    (by omega) (by omega) (by intro raw h; fin_cases h <;> rfl)).1

/-- C2, evaluated path by path: a non-positive limit raises the
invalid-argument error with no request issued; the six degradation paths
(transport failure, undecodable body, non-list followers field, missing
followers field, empty page, missing cursor) absorb the failure and return
the records accumulated so far; but a page whose follower has a truthy
non-string `createdAt` makes `fetch_followers` raise `AttributeError` to
the caller — a termination path outside the claim's list that does raise,
contradicting the claim and the specification's "never raised to the
caller". -/
theorem c2_termination_paths :
    (fetch_followers (fun _ _ _ => ApiResp.fail) 100 "alice" 0 =
      (.error (.valueError "limit must be a positive integer"), [])) ∧
    (fetch_followers (fun _ _ _ => ApiResp.fail) 100 "alice" (-5) =
      (.error (.valueError "limit must be a positive integer"), [])) ∧
    (fetch_followers (twoPage [c2OkRaw] .fail) 100 "alice" 5 =
      (.ok [c2OkRec], [⟨5, none⟩, ⟨4, some "cursor1"⟩])) ∧
    (fetch_followers (twoPage [c2OkRaw] .badBody) 100 "alice" 5 =
      (.ok [c2OkRec], [⟨5, none⟩, ⟨4, some "cursor1"⟩])) ∧
    (fetch_followers (twoPage [c2OkRaw] (.ok ⟨.notList (JVal.str "x"), some "c2"⟩))
        100 "alice" 5 =
      (.ok [c2OkRec], [⟨5, none⟩, ⟨4, some "cursor1"⟩])) ∧
    (fetch_followers (twoPage [c2OkRaw] (.ok ⟨.missing, some "c2"⟩)) 100 "alice" 5 =
      (.ok [c2OkRec], [⟨5, none⟩, ⟨4, some "cursor1"⟩])) ∧
    (fetch_followers (twoPage [c2OkRaw] (.ok ⟨.items [], some "c2"⟩)) 100 "alice" 5 =
      (.ok [c2OkRec], [⟨5, none⟩, ⟨4, some "cursor1"⟩])) ∧
    (fetch_followers (fun _ _ _ => .ok ⟨.items [c2OkRaw], none⟩) 100 "alice" 5 =
      (.ok [c2OkRec], [⟨5, none⟩])) ∧
    (fetch_followers (fun _ _ _ => .ok ⟨.items [[("createdAt", JVal.num 7)]], none⟩)
        100 "alice" 1 =
      (.error (.attributeError "strip"), [⟨1, none⟩])) :=
  ⟨rfl, rfl, rfl, rfl, rfl, rfl, rfl, rfl, rfl⟩

/-! ## Claims C7, C8 and C9 -/

/-- C7 counterexample: the claim quantifies over every record set, but
exporting an empty record set bypasses format validation entirely: the
unrecognized tag "yaml" returns silently instead of failing with an
invalid-format error. -/
theorem c7_counterexample :
    export_followers [] "yaml" none = .ok [] := rfl

/-- C7: with a non-empty record set, the format tag is whitespace/case
normalized through the alias table and dispatched to the matching writer
("HTM" and " html " reach the html writer, "JSON" the json writer, csv,
xml and rss their writers); an unrecognized tag such as "yaml" and an
empty or whitespace-only tag fail with an invalid-format error.  With an
EMPTY record set the claim fails: see the counterexample. -/
theorem c7_format_dispatch {followers : List Raw} (h : followers ≠ [])
    (p : String) :
    export_followers followers "HTM" (some p) =
      .ok [.write p (.htmlC followers)] ∧
    export_followers followers " html " (some p) =
      .ok [.write p (.htmlC followers)] ∧
    export_followers followers "JSON" (some p) =
      .ok [.write p (.jsonC (dumps followers))] ∧
    export_followers followers "csv" (some p) =
      .ok [.write p (.csvC followers)] ∧
    export_followers followers "xml" (some p) =
      .ok [.write p (.xmlC followers)] ∧
    export_followers followers "rss" (some p) =
      .ok [.write p (.rssC followers)] ∧
    export_followers followers "yaml" (some p) =
      .error "Unsupported output format: yaml" ∧
    export_followers followers "" (some p) =
      .error "Unknown or empty output format: " ∧
    export_followers followers "  " (some p) =
      .error "Unknown or empty output format:   " := by
  have hne : followers.isEmpty = false := by
    cases followers with
    | nil => exact absurd rfl h
    | cons a l => rfl
  refine ⟨?_, ?_, ?_, ?_, ?_, ?_, ?_, ?_, ?_⟩ <;>
    (simp only [export_followers, hne, Bool.false_eq_true, if_false]; rfl)

/-- C8 counterexample: the tag "JSON" resolves to the structured-data
(json) writer under the export format resolution, yet an empty record
set with tag "JSON" and no destination prints nothing: the empty-records
branch compares the raw tag with "json" before normalization, so no
empty-array literal is emitted to the default sink. -/
theorem c8_counterexample :
    export_followers [] "JSON" none = .ok [] := rfl

/-- C8 amended: with an empty record set no write effect is ever
produced; the empty-array literal is printed exactly when the RAW tag is
"json" (case-sensitively, before any normalization) and no destination
is given; every other combination is a silent no-op. -/
theorem c8_empty_export (fmt : String) (path : Option String) :
    (fmt = "json" → path = none →
      export_followers [] fmt path = .ok [.stdout "[]"]) ∧
    (fmt ≠ "json" ∨ path ≠ none →
      export_followers [] fmt path = .ok []) ∧
    (∀ effs, export_followers [] fmt path = .ok effs →
      ∀ q c, Effect.write q c ∉ effs) := by
  refine ⟨?_, ?_, ?_⟩
  · intro hf hp
    subst hf
    subst hp
    rfl
  · intro hne
    simp only [export_followers, List.isEmpty_nil, if_true, Except.ok.injEq]
    rcases hne with hne | hne
    · simp [hne]
    · cases path with
      | none => exact absurd rfl hne
      | some q => simp
  · intro effs heff q c hmem
    simp only [export_followers, List.isEmpty_nil, if_true, Except.ok.injEq] at heff
    split at heff
    · rw [← heff] at hmem
      simp at hmem
    · rw [← heff] at hmem
      simp at hmem

/-- C9: for every non-empty record set, the json writer emits
`json.dumps(records, ensure_ascii=False, indent=2)` (to the path when
given, to stdout otherwise), and parsing that text back with
`json.loads` yields exactly the original ordered sequence of records,
field for field. -/
theorem c9_json_roundtrip {followers : List Raw} (h : followers ≠ [])
    (p : String) :
    export_followers followers "json" (some p) =
      .ok [.write p (.jsonC (dumps followers))] ∧
    export_followers followers "json" none = .ok [.stdout (dumps followers)] ∧
    jsonLoads (dumps followers) = some (JVal.arr (followers.map JVal.obj)) := by
  have hne : followers.isEmpty = false := by
    cases followers with
    | nil => exact absurd rfl h
    | cons a l => rfl
  refine ⟨?_, ?_, jsonLoads_dumps followers⟩ <;>
    (simp only [export_followers, hne, Bool.false_eq_true, if_false]; rfl)

/-- C7 witness: a concrete non-empty record set under tag "HTM" reaches
the html writer. -/
theorem c7_format_dispatch_witness :
    ([[("a", JVal.num 1)]] : List Raw) ≠ [] ∧
    export_followers [[("a", JVal.num 1)]] "HTM" (some "out.html") =
      .ok [.write "out.html" (.htmlC [[("a", JVal.num 1)]])] :=
  ⟨List.cons_ne_nil _ _,
    (@c7_format_dispatch [[("a", JVal.num 1)]] (List.cons_ne_nil _ _) "out.html").1⟩

/-- C8 witness: empty records with raw tag "json" and no path print the
empty-array literal; with tag "csv" nothing at all happens. -/
theorem c8_empty_export_witness :
    export_followers [] "json" none = .ok [.stdout "[]"] ∧
    export_followers [] "csv" none = .ok [] :=
  ⟨(c8_empty_export "json" none).1 rfl rfl,
    (c8_empty_export "csv" none).2.1 (Or.inl (by decide))⟩

/-- C9 witness: a concrete one-record set survives the dump/parse round
trip field for field. -/
theorem c9_json_roundtrip_witness :
    ([[("did", JVal.str "d1")]] : List Raw) ≠ [] ∧
    jsonLoads (dumps [[("did", JVal.str "d1")]]) =
      some (JVal.arr [JVal.obj [("did", JVal.str "d1")]]) :=
  ⟨List.cons_ne_nil _ _,
    (@c9_json_roundtrip [[("did", JVal.str "d1")]] (List.cons_ne_nil _ _) "p").2.2⟩

end Scraper
